import Mathlib

/-! Address translation engine (`mem_mgmt.c`)

A shallow embedding of the translation engine: the TLB with FIFO replacement,
the page table with its unmapped sentinel, the frame table with first-fit
allocation, and the counters reported by `status`.

Machine integers are natural numbers or integers with explicit reduction to
the width of their C type: `uint8_t` values modulo 2^8, `uint16_t` values
modulo 2^16, `uint64_t` values modulo 2^64, `int` values wrapped to 32 bits.
Shift counts are reduced modulo the width of the shifted operand, which is
what the shift instructions of the usual 64-bit targets do; in particular the
`int` constant `1` in `(1 << (64 - pfnBits)) - 1` is a 32-bit operand, so for
`pfnBits = 16` the count 48 acts as 16.  An access outside a table and a
remainder by zero have no defined result: `translate` returns `none` there.
-/

namespace MemMgmt

/-! ## C integer arithmetic -/

/-- Wrap-around of an `int` value to 32 bits, two's complement. -/
def wrapInt32 (x : Int) : Int := (x + 2147483648) % 4294967296 - 2147483648

/-- Left shift `a << c` of an `int`: the count is taken modulo 32 and the
result wraps to 32 bits. -/
def shlInt32 (a c : Int) : Int := wrapInt32 (a * ((2 ^ (c % 32).toNat : Nat) : Int))

/-- Conversion of an `int` to `uint64_t`. -/
def toUInt64 (x : Int) : Nat := (x % 18446744073709551616).toNat

/-- Conversion of an `int` to `size_t` (64 bits). -/
def toSizeT (x : Int) : Nat := (x % 18446744073709551616).toNat

/-- Left shift `a << c` of a `uint64_t`: the count is taken modulo 64 and the
result is reduced to 64 bits. -/
def shl64 (a : Nat) (c : Int) : Nat := (a <<< (c % 64).toNat) % 2 ^ 64

/-- Right shift `a >> c` of a `uint64_t`, the count taken modulo 64. -/
def shr64 (a : Nat) (c : Int) : Nat := a >>> (c % 64).toNat

/-- The `int` expression `(1 << n) - 1` converted to `uint64_t`. -/
def intMask (n : Int) : Nat := toUInt64 (wrapInt32 (shlInt32 1 n - 1))

/-! ## Data model -/

/-- One TLB entry: `typedef struct { uint16_t vpn; uint16_t pfn; bool valid; } TLBEntry`. -/
structure TLBEntry where
  vpn : Nat
  pfn : Nat
  valid : Bool
  deriving DecidableEq, Repr

/-- The global variables of `mem_mgmt.c`. -/
structure State where
  TLB : List TLBEntry
  pageTable : List Nat
  freeFrames : List Bool
  tlbMaxSize : Nat
  totalFrames : Nat
  pfnBits : Nat
  vpnBits : Nat
  tlbIndex : Nat
  freeFrameCount : Nat
  allocatedPages : Nat
  tlbEntriesCount : Nat
  deriving DecidableEq, Repr

/-- The structure `res_translate` of `mem_mgmt.h`. -/
structure res_translate where
  phy_address : Nat
  tlb_hit : Bool
  new_frame : Bool
  deriving DecidableEq, Repr

/-- The structure `res_status` of `mem_mgmt.h`. -/
structure res_status where
  free_frame_count : Nat
  allocated_page_count : Nat
  tlb_entries_count : Nat
  deriving DecidableEq, Repr

/-- What one call of `translate` leaves behind: the return code, the contents
written through the `result` pointer (`none` when nothing was written) and the
globals after the call. -/
structure Outcome where
  ret : Int
  result : Option res_translate
  state : State
  deriving DecidableEq, Repr

/-- The unmapped sentinel `(uint16_t) -1`. -/
def unmapped : Nat := 65535

/-! ## Operations -/

/-- The globals after `setup` has returned 0 (every `calloc` succeeded).  The
arguments are converted to the parameter types `uint8_t` and `uint16_t`. -/
def setup (tlb_max_size phy_frames pfn_bits vpn_bits : Nat) : State :=
  { TLB := List.replicate (tlb_max_size % 256) ⟨0, 0, false⟩
    pageTable := List.replicate (toSizeT (shlInt32 1 ((vpn_bits % 256 : Nat) : Int))) unmapped
    freeFrames := List.replicate (phy_frames % 65536) true
    tlbMaxSize := tlb_max_size % 256
    totalFrames := phy_frames % 65536
    pfnBits := pfn_bits % 256
    vpnBits := vpn_bits % 256
    tlbIndex := 0
    freeFrameCount := phy_frames % 65536
    allocatedPages := 0
    tlbEntriesCount := 0 }

/-- The VPN extracted at line 72:
`(virtual_address >> (64 - vpnBits)) & ((1 << vpnBits) - 1)`, stored in a
`uint16_t`. -/
def vpnOf (s : State) (virtual_address : Nat) : Nat :=
  (shr64 virtual_address (64 - (s.vpnBits : Int)) &&& intMask (s.vpnBits : Int)) % 65536

/-- The offset extracted at line 74:
`virtual_address & ((1 << (64 - pfnBits)) - 1)`. -/
def offsetOf (s : State) (virtual_address : Nat) : Nat :=
  virtual_address &&& intMask (64 - (s.pfnBits : Int))

/-- The physical address `((uint64_t) pfn << (64 - pfnBits)) | offset`. -/
def phyAddr (s : State) (pfn offset : Nat) : Nat :=
  shl64 pfn (64 - (s.pfnBits : Int)) ||| offset

/-- The TLB scan of lines 79-85, from index `i` for `n` more iterations: the
PFN of the first valid entry holding `vpn`, if there is one.  The outer
`none` is a read outside the TLB. -/
def tlbScan (TLB : List TLBEntry) (vpn : Nat) : Nat → Nat → Option (Option Nat)
  | _, 0 => some none
  | i, n + 1 =>
    match TLB[i]? with
    | none => none
    | some e => if e.valid && e.vpn == vpn then some (some e.pfn) else tlbScan TLB vpn (i + 1) n

/-- The frame search of lines 116-124, from index `i` for `n` more iterations:
the index of the first free frame, if there is one.  The outer `none` is a
read outside the frame table. -/
def findFrame (freeFrames : List Bool) : Nat → Nat → Option (Option Nat)
  | _, 0 => some none
  | i, n + 1 =>
    match freeFrames[i]? with
    | none => none
    | some true => some (some i)
    | some false => findFrame freeFrames (i + 1) n

/-- The FIFO insertion of lines 100-106 and 135-141: write the entry at
`tlbIndex`, advance the index modulo `tlbMaxSize`, count the entry if the TLB
is not full. -/
def tlbInsert (s : State) (vpn pfn : Nat) : Option State :=
  if s.tlbIndex < s.TLB.length then
    if s.tlbMaxSize = 0 then none
    else
      some { s with
        TLB := s.TLB.set s.tlbIndex ⟨vpn, pfn, true⟩
        tlbIndex := ((s.tlbIndex + 1) % s.tlbMaxSize) % 256
        tlbEntriesCount :=
          if s.tlbEntriesCount < s.tlbMaxSize then (s.tlbEntriesCount + 1) % 256
          else s.tlbEntriesCount }
  else none

/-- The function `translate` of `mem_mgmt.c`. -/
def translate (s : State) (virtual_address : Nat) : Option Outcome :=
  let vpn := vpnOf s virtual_address
  let offset := offsetOf s virtual_address
  match tlbScan s.TLB vpn 0 s.tlbEntriesCount with
  | none => none
  | some (some pfn) =>
    some ⟨0, some ⟨phyAddr s pfn offset, true, false⟩, s⟩
  | some none =>
    match s.pageTable[vpn]? with
    | none => none
    | some entry =>
      if entry ≠ unmapped then
        match tlbInsert s vpn entry with
        | none => none
        | some s1 => some ⟨0, some ⟨phyAddr s entry offset, false, false⟩, s1⟩
      else
        match findFrame s.freeFrames 0 s.totalFrames with
        | none => none
        | some none => some ⟨1, none, s⟩
        | some (some frame) =>
          let s1 := { s with
            freeFrames := s.freeFrames.set frame false
            freeFrameCount := (s.freeFrameCount + 65535) % 65536 }
          let pfn := frame % 65536
          let s2 := { s1 with pageTable := s1.pageTable.set vpn pfn }
          match tlbInsert s2 vpn pfn with
          | none => none
          | some s3 =>
            some ⟨0, some ⟨phyAddr s pfn offset, false, true⟩,
              { s3 with allocatedPages := (s3.allocatedPages + 1) % 65536 }⟩

/-- The function `status` of `mem_mgmt.c`; the TLB count is widened to
`uint16_t`. -/
def status (s : State) : res_status :=
  ⟨s.freeFrameCount, s.allocatedPages, s.tlbEntriesCount⟩

/-- A session: `translate` called on each address in turn, whatever the
return codes; `none` as soon as one call has no defined result. -/
def run (s : State) : List Nat → Option State
  | [] => some s
  | a :: as =>
    match translate s a with
    | none => none
    | some o => run o.state as

/-- The results of a session, one per call, in order. -/
def runResults (s : State) : List Nat → Option (List (Int × Option res_translate))
  | [] => some []
  | a :: as =>
    match translate s a with
    | none => none
    | some o =>
      match runResults o.state as with
      | none => none
      | some rs => some ((o.ret, o.result) :: rs)

/-- The frame-number field `phy_address >> (64 - pfnBits)` of a physical
address, as the simulator reads it (`OFFSET_BITS = 64 - PFN_BITS`). -/
def frameField (s : State) (phy_address : Nat) : Nat :=
  shr64 phy_address (64 - (s.pfnBits : Int))

/-- The addresses of the simulator, `virt_addrs`. -/
def virt_addrs : List Nat :=
  [0x23450000000000, 0x23FF0000005678, 0x11FF0000000000,
   0x11FF0000000000, 0x18FF0000000000, 0x19080000000000,
   0x11FF0000000000, 0x23450000000000, 0x00FF0000000000,
   0x0123456789ABCD, 0x02000000000000, 0x03000000000000,
   0x04000000000000, 0x05000000000000]

/-! ## Auxiliary definitions for the proofs and concrete sessions -/

/-- The globals between lines 133 and 135 of the allocation path: frame
`frame` taken, the counter decremented, the page-table slot written. -/
def allocated (s : State) (vpn frame : Nat) : State :=
  { s with
    freeFrames := s.freeFrames.set frame false
    freeFrameCount := (s.freeFrameCount + 65535) % 65536
    pageTable := s.pageTable.set vpn (frame % 65536) }

/-- The globals after a FIFO insertion that was defined. -/
def inserted (s : State) (vpn pfn : Nat) : State :=
  { s with
    TLB := s.TLB.set s.tlbIndex ⟨vpn, pfn, true⟩
    tlbIndex := ((s.tlbIndex + 1) % s.tlbMaxSize) % 256
    tlbEntriesCount :=
      if s.tlbEntriesCount < s.tlbMaxSize then (s.tlbEntriesCount + 1) % 256
      else s.tlbEntriesCount }

/-- The paths through `translate`, as a relation between the call and what
it leaves behind. -/
inductive Path (s : State) (a : Nat) : Outcome → Prop
  | hit (pfn : Nat)
      (hs : tlbScan s.TLB (vpnOf s a) 0 s.tlbEntriesCount = some (some pfn)) :
      Path s a ⟨0, some ⟨phyAddr s pfn (offsetOf s a), true, false⟩, s⟩
  | table (entry : Nat)
      (hs : tlbScan s.TLB (vpnOf s a) 0 s.tlbEntriesCount = some none)
      (hp : s.pageTable[vpnOf s a]? = some entry) (hu : entry ≠ unmapped)
      (hi : s.tlbIndex < s.TLB.length) (hm : s.tlbMaxSize ≠ 0) :
      Path s a ⟨0, some ⟨phyAddr s entry (offsetOf s a), false, false⟩,
        inserted s (vpnOf s a) entry⟩
  | full
      (hs : tlbScan s.TLB (vpnOf s a) 0 s.tlbEntriesCount = some none)
      (hp : s.pageTable[vpnOf s a]? = some unmapped)
      (hf : findFrame s.freeFrames 0 s.totalFrames = some none) :
      Path s a ⟨1, none, s⟩
  | fresh (frame : Nat)
      (hs : tlbScan s.TLB (vpnOf s a) 0 s.tlbEntriesCount = some none)
      (hp : s.pageTable[vpnOf s a]? = some unmapped)
      (hf : findFrame s.freeFrames 0 s.totalFrames = some (some frame))
      (hi : s.tlbIndex < s.TLB.length) (hm : s.tlbMaxSize ≠ 0) :
      Path s a ⟨0, some ⟨phyAddr s (frame % 65536) (offsetOf s a), false, true⟩,
        { inserted (allocated s (vpnOf s a) frame) (vpnOf s a) (frame % 65536) with
          allocatedPages := (s.allocatedPages + 1) % 65536 }⟩

/-- What holds of the globals after `setup` and after every call of
`translate`: table sizes, counter bookkeeping, and the agreement of the TLB
and the page table with the frame table. -/
structure Inv (s : State) : Prop where
  hT : s.totalFrames < 65536
  hM : s.tlbMaxSize < 256
  hTl : s.TLB.length = s.tlbMaxSize
  hPl : s.pageTable.length = toSizeT (shlInt32 1 (s.vpnBits : Int))
  hFl : s.freeFrames.length = s.totalFrames
  hFc : s.freeFrames.count true = s.freeFrameCount
  hSum : s.allocatedPages + s.freeFrameCount = s.totalFrames
  hCnt : s.tlbEntriesCount ≤ s.tlbMaxSize
  hIdx : s.tlbMaxSize ≠ 0 → s.tlbIndex < s.tlbMaxSize
  hIdxCnt : s.tlbEntriesCount < s.tlbMaxSize → s.tlbIndex = s.tlbEntriesCount
  hPT : ∀ (v pfn : Nat), s.pageTable[v]? = some pfn → pfn ≠ unmapped → s.freeFrames[pfn]? = some false
  hInj : ∀ (v w pfn : Nat), s.pageTable[v]? = some pfn → s.pageTable[w]? = some pfn →
    pfn ≠ unmapped → v = w
  hTLB : ∀ (i : Nat) (e : TLBEntry), i < s.tlbEntriesCount → s.TLB[i]? = some e →
    e.valid = true ∧ s.pageTable[e.vpn]? = some e.pfn ∧ e.pfn ≠ unmapped

/-- Nine addresses with the VPNs 0 to 8 under `vpnBits = 8`. -/
def ninePages : List Nat :=
  [0x0000000000000000, 0x0100000000000000, 0x0200000000000000, 0x0300000000000000,
   0x0400000000000000, 0x0500000000000000, 0x0600000000000000, 0x0700000000000000,
   0x0800000000000000]

/-- The globals after `setup(5, 9, 16, 8)` and the translation of `ninePages`. -/
def fullState : State :=
  { TLB := [⟨5, 5, true⟩, ⟨6, 6, true⟩, ⟨7, 7, true⟩, ⟨8, 8, true⟩, ⟨4, 4, true⟩]
    pageTable := [0, 1, 2, 3, 4, 5, 6, 7, 8] ++ List.replicate 247 unmapped
    freeFrames := List.replicate 9 false
    tlbMaxSize := 5
    totalFrames := 9
    pfnBits := 16
    vpnBits := 8
    tlbIndex := 4
    freeFrameCount := 0
    allocatedPages := 9
    tlbEntriesCount := 5 }

/-- The globals after `setup(5, 9, 16, 8)` and the translation of the
simulator's first address `0x23450000000000`, whose VPN is 0. -/
def firstState : State :=
  { TLB := [⟨0, 0, true⟩, ⟨0, 0, false⟩, ⟨0, 0, false⟩, ⟨0, 0, false⟩, ⟨0, 0, false⟩]
    pageTable := 0 :: List.replicate 255 unmapped
    freeFrames := false :: List.replicate 8 true
    tlbMaxSize := 5
    totalFrames := 9
    pfnBits := 16
    vpnBits := 8
    tlbIndex := 1
    freeFrameCount := 8
    allocatedPages := 1
    tlbEntriesCount := 1 }

/-- The globals after translating an address of VPN 1 in `firstState`. -/
def secondState : State :=
  { TLB := [⟨0, 0, true⟩, ⟨1, 1, true⟩, ⟨0, 0, false⟩, ⟨0, 0, false⟩, ⟨0, 0, false⟩]
    pageTable := 0 :: 1 :: List.replicate 254 unmapped
    freeFrames := false :: false :: List.replicate 7 true
    tlbMaxSize := 5
    totalFrames := 9
    pfnBits := 16
    vpnBits := 8
    tlbIndex := 2
    freeFrameCount := 7
    allocatedPages := 2
    tlbEntriesCount := 2 }

/-- A live entry for `w`: a valid TLB entry below `tlbEntriesCount` holding `w`. -/
def Cached (s : State) (w : Nat) : Prop :=
  ∃ j e, j < s.tlbEntriesCount ∧ s.TLB[j]? = some e ∧ e.valid = true ∧ e.vpn = w

/-- The globals after the pages `vs`, pairwise distinct, were translated in
this order from a fresh engine: page number `i` of the session sits in TLB
slot `i mod tlbMaxSize` as long as fewer than `tlbMaxSize` pages came after
it. -/
structure Fifo (vs : List Nat) (s : State) : Prop where
  alloc : s.allocatedPages = vs.length
  idx : s.tlbIndex = vs.length % s.tlbMaxSize
  cnt : s.tlbEntriesCount = min vs.length s.tlbMaxSize
  mapped : ∀ (w : Nat), w < s.pageTable.length → (s.pageTable[w]? = some unmapped ↔ w ∉ vs)
  live : ∀ (j : Nat), j < s.tlbEntriesCount → ∃ i e, i < vs.length ∧
    vs.length ≤ i + s.tlbMaxSize ∧ i % s.tlbMaxSize = j ∧ s.TLB[j]? = some e ∧
    vs[i]? = some e.vpn

/-- The physical address as the specification words it:
`(PFN << (64 - pfnBits)) | (a & (2^(64 - pfnBits) - 1))`, in 64 bits. -/
def specPhyAddr (pfnBits pfn a : Nat) : Nat :=
  (pfn <<< (64 - pfnBits)) % 2 ^ 64 ||| (a &&& (2 ^ (64 - pfnBits) - 1))

/-- The page of an address as the simulator counts pages: the bits above the
`OFFSET_BITS = 48` offset bits. -/
def simulatorPage (a : Nat) : Nat := a >>> 48

/-- The live TLB entries (index below `tlbEntriesCount`) hold pairwise distinct
VPNs. -/
def TlbDistinct (s : State) : Prop :=
  ∀ (i j : Nat) (e1 e2 : TLBEntry), i < s.tlbEntriesCount → j < s.tlbEntriesCount →
    s.TLB[i]? = some e1 → s.TLB[j]? = some e2 → e1.vpn = e2.vpn → i = j

/-- The frame table is used from index 0 upward: frame `i` is free exactly
when `allocatedPages ≤ i`. -/
def FramesInOrder (s : State) : Prop :=
  ∀ (i : Nat), i < s.totalFrames → s.freeFrames[i]? = some (decide (s.allocatedPages ≤ i))

/-- The page-table slot of `w` holds a frame number, not the sentinel. -/
def Mapped (s : State) (w : Nat) : Prop :=
  ∃ pfn, s.pageTable[w]? = some pfn ∧ pfn ≠ unmapped

/-- The VPNs of the calls of a session that reported `new_frame = true`, in
the order of the calls. -/
def newFrameVpns (s : State) : List Nat → List Nat
  | [] => []
  | a :: as =>
    match translate s a with
    | none => []
    | some o =>
      match o.result with
      | none => newFrameVpns o.state as
      | some r =>
        if r.new_frame then vpnOf s a :: newFrameVpns o.state as
        else newFrameVpns o.state as

/-! ## Arithmetic of the masks and shifts -/

theorem shiftCount_lt (n : Int) : (n % 32).toNat < 32 := by
  have h1 : 0 ≤ n % 32 := Int.emod_nonneg _ (by norm_num)
  have h2 : n % 32 < 32 := Int.emod_lt_of_pos _ (by norm_num)
  omega

theorem intMask_eq (n : Int) : intMask n = 2 ^ (n % 32).toNat - 1 := by
  have h := shiftCount_lt n
  unfold intMask shlInt32
  generalize (n % 32).toNat = k at h
  interval_cases k <;> rfl

theorem pageCount_gt (n : Int) : 2 ^ (n % 32).toNat - 1 < toSizeT (shlInt32 1 n) := by
  have h := shiftCount_lt n
  unfold shlInt32
  generalize (n % 32).toNat = k at h
  interval_cases k <;> decide

theorem vpnOf_lt_pageCount (s : State) (a : Nat) :
    vpnOf s a < toSizeT (shlInt32 1 (s.vpnBits : Int)) := by
  unfold vpnOf
  rw [intMask_eq]
  have h1 := @Nat.and_le_right (shr64 a (64 - (s.vpnBits : Int))) (2 ^ ((s.vpnBits : Int) % 32).toNat - 1)
  have h2 := pageCount_gt (s.vpnBits : Int)
  have h3 := Nat.mod_le (shr64 a (64 - (s.vpnBits : Int)) &&& (2 ^ ((s.vpnBits : Int) % 32).toNat - 1)) 65536
  omega

theorem vpnOf_lt (s : State) (a : Nat) : vpnOf s a < 65536 :=
  Nat.mod_lt _ (by norm_num)

/-! ## The two scans -/

theorem tlbScan_defined (T : List TLBEntry) (v : Nat) :
    ∀ (n i : Nat), i + n ≤ T.length → ∃ r, tlbScan T v i n = some r := by
  intro n
  induction n with
  | zero => intro i _; exact ⟨none, rfl⟩
  | succ n ih =>
    intro i h
    have hi : i < T.length := by omega
    simp only [tlbScan, List.getElem?_eq_getElem hi]
    split
    · exact ⟨_, rfl⟩
    · exact ih (i + 1) (by omega)

theorem tlbScan_some (T : List TLBEntry) (v : Nat) :
    ∀ (n i p : Nat), tlbScan T v i n = some (some p) →
      ∃ j e, i ≤ j ∧ j < i + n ∧ T[j]? = some e ∧ e.valid = true ∧ e.vpn = v ∧ e.pfn = p := by
  intro n
  induction n with
  | zero => intro i p h; simp [tlbScan] at h
  | succ n ih =>
    intro i p h
    simp only [tlbScan] at h
    cases hT : T[i]? with
    | none => simp [hT] at h
    | some e =>
      simp only [hT] at h
      by_cases hc : (e.valid && e.vpn == v) = true
      · simp only [hc, if_true, Option.some.injEq] at h
        simp only [Bool.and_eq_true, beq_iff_eq] at hc
        exact ⟨i, e, le_refl _, by omega, hT, hc.1, hc.2, h⟩
      · simp only [hc] at h
        obtain ⟨j, e1, h1, h2, h3⟩ := ih (i + 1) p h
        exact ⟨j, e1, by omega, by omega, h3⟩

theorem tlbScan_none (T : List TLBEntry) (v : Nat) :
    ∀ (n i : Nat), tlbScan T v i n = some none →
      ∀ j e, i ≤ j → j < i + n → T[j]? = some e → ¬ (e.valid = true ∧ e.vpn = v) := by
  intro n
  induction n with
  | zero => intro i _ j e h1 h2; omega
  | succ n ih =>
    intro i h j e h1 h2 hj
    simp only [tlbScan] at h
    cases hT : T[i]? with
    | none => simp [hT] at h
    | some e0 =>
      simp only [hT] at h
      by_cases hc : (e0.valid && e0.vpn == v) = true
      · simp [hc] at h
      · simp only [hc] at h
        by_cases hij : j = i
        · subst hij
          rw [hT] at hj
          cases hj
          simpa [Bool.and_eq_true, beq_iff_eq] using hc
        · exact ih (i + 1) h j e (by omega) (by omega) hj

theorem tlbScan_hit_of_mem (T : List TLBEntry) (v : Nat) :
    ∀ (n i : Nat), i + n ≤ T.length →
      (∃ j e, i ≤ j ∧ j < i + n ∧ T[j]? = some e ∧ e.valid = true ∧ e.vpn = v) →
      ∃ p, tlbScan T v i n = some (some p) := by
  intro n i hb hex
  obtain ⟨r, hr⟩ := tlbScan_defined T v n i hb
  cases r with
  | some p => exact ⟨p, hr⟩
  | none =>
    obtain ⟨j, e, h1, h2, h3, h4, h5⟩ := hex
    exact absurd ⟨h4, h5⟩ (tlbScan_none T v n i hr j e h1 h2 h3)

theorem findFrame_defined (F : List Bool) :
    ∀ (n i : Nat), i + n ≤ F.length → ∃ r, findFrame F i n = some r := by
  intro n
  induction n with
  | zero => intro i _; exact ⟨none, rfl⟩
  | succ n ih =>
    intro i h
    have hi : i < F.length := by omega
    simp only [findFrame, List.getElem?_eq_getElem hi]
    cases F[i] with
    | true => exact ⟨_, rfl⟩
    | false => exact ih (i + 1) (by omega)

theorem findFrame_some (F : List Bool) :
    ∀ (n i f : Nat), findFrame F i n = some (some f) →
      i ≤ f ∧ f < i + n ∧ F[f]? = some true ∧ ∀ j, i ≤ j → j < f → F[j]? = some false := by
  intro n
  induction n with
  | zero => intro i f h; simp [findFrame] at h
  | succ n ih =>
    intro i f h
    simp only [findFrame] at h
    cases hF : F[i]? with
    | none => simp [hF] at h
    | some b =>
      cases b with
      | true =>
        simp only [hF, Option.some.injEq] at h
        subst h
        exact ⟨le_refl _, by omega, hF, fun j h1 h2 => by omega⟩
      | false =>
        simp only [hF] at h
        obtain ⟨h1, h2, h3, h4⟩ := ih (i + 1) f h
        refine ⟨by omega, by omega, h3, fun j hj1 hj2 => ?_⟩
        by_cases hij : j = i
        · subst hij; exact hF
        · exact h4 j (by omega) hj2

theorem findFrame_none (F : List Bool) :
    ∀ (n i : Nat), findFrame F i n = some none →
      ∀ j, i ≤ j → j < i + n → F[j]? = some false := by
  intro n
  induction n with
  | zero => intro i _ j h1 h2; omega
  | succ n ih =>
    intro i h j h1 h2
    simp only [findFrame] at h
    cases hF : F[i]? with
    | none => simp [hF] at h
    | some b =>
      cases b with
      | true => simp [hF] at h
      | false =>
        simp only [hF] at h
        by_cases hij : j = i
        · subst hij; exact hF
        · exact ih (i + 1) h j (by omega) (by omega)

/-! ## The four paths of `translate` -/

theorem tlbInsert_eq_some (s s1 : State) (v p : Nat) (h : tlbInsert s v p = some s1) :
    s.tlbIndex < s.TLB.length ∧ s.tlbMaxSize ≠ 0 ∧ s1 = inserted s v p := by
  unfold tlbInsert at h
  split at h
  · split at h
    · cases h
    · rename_i h1 h2
      cases h
      exact ⟨h1, h2, rfl⟩
  · cases h

theorem tlbInsert_defined (s : State) (v p : Nat) (h1 : s.tlbIndex < s.TLB.length)
    (h2 : s.tlbMaxSize ≠ 0) : tlbInsert s v p = some (inserted s v p) := by
  unfold tlbInsert
  rw [if_pos h1, if_neg h2]
  rfl

theorem translate_path (s : State) (a : Nat) (o : Outcome) (h : translate s a = some o) :
    Path s a o := by
  unfold translate at h
  simp only at h
  cases hs : tlbScan s.TLB (vpnOf s a) 0 s.tlbEntriesCount with
  | none => simp [hs] at h
  | some r =>
    cases r with
    | some pfn =>
      simp only [hs, Option.some.injEq] at h
      subst h
      exact Path.hit pfn hs
    | none =>
      simp only [hs] at h
      cases hp : s.pageTable[vpnOf s a]? with
      | none => simp [hp] at h
      | some entry =>
        simp only [hp] at h
        by_cases hu : entry = unmapped
        · subst hu
          simp only [ne_eq, not_true_eq_false, if_false] at h
          cases hf : findFrame s.freeFrames 0 s.totalFrames with
          | none => simp [hf] at h
          | some r =>
            cases r with
            | none =>
              simp only [hf, Option.some.injEq] at h
              subst h
              exact Path.full hs hp hf
            | some frame =>
              simp only [hf] at h
              split at h
              · cases h
              · rename_i s3 h3
                obtain ⟨h4, h5, h6⟩ := tlbInsert_eq_some _ _ _ _ h3
                simp only [Option.some.injEq] at h
                subst h
                subst h6
                exact Path.fresh frame hs hp hf h4 h5
        · simp only [ne_eq, hu, not_false_eq_true, if_true] at h
          split at h
          · cases h
          · rename_i s1 h1
            obtain ⟨h4, h5, h6⟩ := tlbInsert_eq_some _ _ _ _ h1
            simp only [Option.some.injEq] at h
            subst h
            subst h6
            exact Path.table entry hs hp hu h4 h5

theorem path_translate (s : State) (a : Nat) (o : Outcome) (h : Path s a o) :
    translate s a = some o := by
  unfold translate
  cases h with
  | hit pfn hs => simp only [hs]
  | table entry hs hp hu hi hm =>
    simp only [hs, hp, ne_eq, hu, not_false_eq_true, if_true, tlbInsert_defined s _ _ hi hm]
  | full hs hp hf => simp only [hs, hp, ne_eq, not_true_eq_false, if_false, hf]
  | fresh frame hs hp hf hi hm =>
    simp only [hs, hp, ne_eq, not_true_eq_false, if_false, hf]
    have := tlbInsert_defined (allocated s (vpnOf s a) frame) (vpnOf s a) (frame % 65536) hi hm
    unfold allocated at this
    simp only [this]
    rfl

/-! ## The invariant of the engine -/

theorem inv_setup (t f p v : Nat) : Inv (setup t f p v) where
  hT := Nat.mod_lt _ (by norm_num)
  hM := Nat.mod_lt _ (by norm_num)
  hTl := by simp [setup]
  hPl := by simp [setup]
  hFl := by simp [setup]
  hFc := by simp [setup]
  hSum := by simp [setup]
  hCnt := by simp [setup]
  hIdx := by
    intro h
    simp only [setup] at h ⊢
    omega
  hIdxCnt := by intro _; rfl
  hPT := by
    intro w pfn h hne
    dsimp only [setup] at h
    exact absurd (List.eq_of_mem_replicate (List.getElem?_mem h)) hne
  hInj := by
    intro w1 w2 pfn h _ hne
    dsimp only [setup] at h
    exact absurd (List.eq_of_mem_replicate (List.getElem?_mem h)) hne
  hTLB := by
    intro i e h
    simp [setup] at h

theorem inv_inserted (s : State) (v p : Nat) (h : Inv s) (hm : s.tlbMaxSize ≠ 0)
    (hp : s.pageTable[v]? = some p) (hu : p ≠ unmapped) : Inv (inserted s v p) where
  hT := h.hT
  hM := h.hM
  hTl := by simp [inserted, h.hTl]
  hPl := h.hPl
  hFl := h.hFl
  hFc := h.hFc
  hSum := h.hSum
  hCnt := by
    have := h.hCnt
    have := h.hM
    simp only [inserted]
    split <;> omega
  hIdx := by
    intro _
    have := Nat.mod_lt (s.tlbIndex + 1) (Nat.pos_of_ne_zero hm)
    have := h.hM
    show ((s.tlbIndex + 1) % s.tlbMaxSize) % 256 < s.tlbMaxSize
    rw [Nat.mod_eq_of_lt (a := (s.tlbIndex + 1) % s.tlbMaxSize) (by omega)]
    assumption
  hIdxCnt := by
    have h1 := h.hIdxCnt
    have h2 := h.hM
    have h3 := h.hCnt
    simp only [inserted]
    split
    · rename_i hlt
      intro h4
      have e0 : (s.tlbEntriesCount + 1) % 256 = s.tlbEntriesCount + 1 :=
        Nat.mod_eq_of_lt (by omega)
      rw [e0] at h4
      rw [h1 hlt, Nat.mod_eq_of_lt h4, e0]
    · intro h4; omega
  hPT := h.hPT
  hInj := h.hInj
  hTLB := by
    intro i e hi he
    have h1 := h.hIdxCnt
    have h2 := h.hM
    have h3 := h.hCnt
    have h4 := h.hIdx hm
    simp only [inserted] at hi he
    by_cases hieq : s.tlbIndex = i
    · subst hieq
      rw [List.getElem?_set_self (by rw [h.hTl]; exact h4)] at he
      cases he
      exact ⟨rfl, hp, hu⟩
    · rw [List.getElem?_set_ne hieq] at he
      have hi2 : i < s.tlbEntriesCount := by
        split at hi
        · rename_i hlt
          rw [Nat.mod_eq_of_lt (by omega)] at hi
          have := h1 hlt
          omega
        · exact hi
      exact h.hTLB i e hi2 he

theorem findFrame_bound (s : State) (f : Nat) (h : Inv s)
    (hf : findFrame s.freeFrames 0 s.totalFrames = some (some f)) :
    f < s.totalFrames ∧ f % 65536 = f ∧ f ≠ unmapped ∧ s.freeFrames[f]? = some true ∧
      1 ≤ s.freeFrameCount := by
  obtain ⟨_, h2, h3, _⟩ := findFrame_some _ _ _ _ hf
  have hT := h.hT
  have hpos : 0 < s.freeFrames.count true :=
    List.count_pos_iff.mpr (List.getElem?_mem h3)
  have hFc := h.hFc
  refine ⟨by omega, Nat.mod_eq_of_lt (by omega), ?_, h3, by omega⟩
  unfold unmapped
  omega

theorem inv_allocated (s : State) (a f : Nat) (h : Inv s)
    (hp : s.pageTable[vpnOf s a]? = some unmapped)
    (hf : findFrame s.freeFrames 0 s.totalFrames = some (some f)) :
    Inv { allocated s (vpnOf s a) f with allocatedPages := (s.allocatedPages + 1) % 65536 } := by
  obtain ⟨hlt, hmod, hne, hfree, hpos⟩ := findFrame_bound s f h hf
  have hflen : f < s.freeFrames.length := by rw [h.hFl]; exact hlt
  have hvlen : vpnOf s a < s.pageTable.length := by
    rw [h.hPl]; exact vpnOf_lt_pageCount s a
  have hfget : s.freeFrames[f] = true := by
    rw [List.getElem?_eq_getElem hflen] at hfree
    exact Option.some.inj hfree
  constructor
  · exact h.hT
  · exact h.hM
  · exact h.hTl
  · show (s.pageTable.set _ _).length = _
    rw [List.length_set]; exact h.hPl
  · show (s.freeFrames.set _ _).length = _
    rw [List.length_set]; exact h.hFl
  · show (s.freeFrames.set f false).count true = (s.freeFrameCount + 65535) % 65536
    rw [List.count_set _ _ _ _ hflen, hfget, h.hFc]
    have := h.hSum
    have := h.hT
    simp only [beq_self_eq_true, if_true, Bool.false_eq_true, beq_iff_eq, if_false]
    omega
  · show (s.allocatedPages + 1) % 65536 + (s.freeFrameCount + 65535) % 65536 = s.totalFrames
    have := h.hSum
    have := h.hT
    omega
  · exact h.hCnt
  · exact h.hIdx
  · exact h.hIdxCnt
  · intro w pfn hw hu
    show (s.freeFrames.set f false)[pfn]? = some false
    have hw1 : (s.pageTable.set (vpnOf s a) (f % 65536))[w]? = some pfn := hw
    by_cases hwv : vpnOf s a = w
    · subst hwv
      rw [List.getElem?_set_self hvlen, hmod] at hw1
      cases hw1
      exact List.getElem?_set_self hflen
    · rw [List.getElem?_set_ne hwv] at hw1
      have hold := h.hPT w pfn hw1 hu
      by_cases hfp : f = pfn
      · subst hfp
        exact List.getElem?_set_self hflen
      · rw [List.getElem?_set_ne hfp]; exact hold
  · intro w1 w2 pfn hw1 hw2 hu
    have hw1a : (s.pageTable.set (vpnOf s a) (f % 65536))[w1]? = some pfn := hw1
    have hw2a : (s.pageTable.set (vpnOf s a) (f % 65536))[w2]? = some pfn := hw2
    have key : ∀ w, vpnOf s a ≠ w → s.pageTable[w]? = some f → False := by
      intro w _ hw
      have := h.hPT w f hw hne
      rw [hfree] at this
      cases this
    by_cases e1 : vpnOf s a = w1
    · by_cases e2 : vpnOf s a = w2
      · rw [← e1, ← e2]
      · rw [List.getElem?_set_ne e2] at hw2a
        rw [← e1, List.getElem?_set_self hvlen, hmod] at hw1a
        cases hw1a
        exact (key w2 e2 hw2a).elim
    · rw [List.getElem?_set_ne e1] at hw1a
      by_cases e2 : vpnOf s a = w2
      · rw [← e2, List.getElem?_set_self hvlen, hmod] at hw2a
        cases hw2a
        exact (key w1 e1 hw1a).elim
      · rw [List.getElem?_set_ne e2] at hw2a
        exact h.hInj w1 w2 pfn hw1a hw2a hu
  · intro i e hi he
    obtain ⟨h1, h2, h3⟩ := h.hTLB i e hi he
    refine ⟨h1, ?_, h3⟩
    show (s.pageTable.set (vpnOf s a) (f % 65536))[e.vpn]? = some e.pfn
    have hne2 : vpnOf s a ≠ e.vpn := by
      intro hc
      rw [← hc, hp] at h2
      exact h3 (Option.some.inj h2).symm
    rw [List.getElem?_set_ne hne2]; exact h2

theorem inv_translate (s : State) (a : Nat) (o : Outcome) (h : Inv s)
    (ht : translate s a = some o) : Inv o.state := by
  cases translate_path s a o ht with
  | hit pfn hs => exact h
  | table entry hs hp hu hi hm => exact inv_inserted s _ _ h hm hp hu
  | full hs hp hf => exact h
  | fresh frame hs hp hf hi hm =>
    obtain ⟨hlt, hmod, hne, hfree, hpos⟩ := findFrame_bound s frame h hf
    have hvlen : vpnOf s a < s.pageTable.length := by
      rw [h.hPl]; exact vpnOf_lt_pageCount s a
    have hm2 := inv_allocated s a frame h hp hf
    refine inv_inserted _ (vpnOf s a) (frame % 65536) hm2 hm ?_ (by rw [hmod]; exact hne)
    show (s.pageTable.set (vpnOf s a) (frame % 65536))[vpnOf s a]? = some (frame % 65536)
    exact List.getElem?_set_self hvlen

theorem inv_run (addrs : List Nat) : ∀ (s s1 : State), Inv s → run s addrs = some s1 → Inv s1 := by
  induction addrs with
  | nil =>
    intro s s1 h hr
    simp only [run, Option.some.injEq] at hr
    exact hr ▸ h
  | cons a as ih =>
    intro s s1 h hr
    simp only [run] at hr
    cases ht : translate s a with
    | none => simp [ht] at hr
    | some o =>
      simp only [ht] at hr
      exact ih o.state s1 (inv_translate s a o h ht) hr

theorem translate_config (s : State) (a : Nat) (o : Outcome) (ht : translate s a = some o) :
    o.state.tlbMaxSize = s.tlbMaxSize ∧ o.state.totalFrames = s.totalFrames ∧
      o.state.pfnBits = s.pfnBits ∧ o.state.vpnBits = s.vpnBits := by
  cases translate_path s a o ht <;> exact ⟨rfl, rfl, rfl, rfl⟩

theorem run_config (addrs : List Nat) : ∀ (s s1 : State), run s addrs = some s1 →
    s1.tlbMaxSize = s.tlbMaxSize ∧ s1.totalFrames = s.totalFrames ∧
      s1.pfnBits = s.pfnBits ∧ s1.vpnBits = s.vpnBits := by
  induction addrs with
  | nil =>
    intro s s1 hr
    simp only [run, Option.some.injEq] at hr
    subst hr
    exact ⟨rfl, rfl, rfl, rfl⟩
  | cons a as ih =>
    intro s s1 hr
    simp only [run] at hr
    cases ht : translate s a with
    | none => simp [ht] at hr
    | some o =>
      simp only [ht] at hr
      obtain ⟨h1, h2, h3, h4⟩ := ih o.state s1 hr
      obtain ⟨g1, g2, g3, g4⟩ := translate_config s a o ht
      exact ⟨h1.trans g1, h2.trans g2, h3.trans g3, h4.trans g4⟩

theorem inv_reachable (t f p v : Nat) (addrs : List Nat) (s : State)
    (hr : run (setup t f p v) addrs = some s) : Inv s :=
  inv_run addrs _ s (inv_setup t f p v) hr

/-- A VPN whose page-table slot is unmapped is in no live TLB entry. -/
theorem scan_miss_of_unmapped (s : State) (w : Nat) (h : Inv s)
    (hp : s.pageTable[w]? = some unmapped) :
    tlbScan s.TLB w 0 s.tlbEntriesCount = some none := by
  have hb : 0 + s.tlbEntriesCount ≤ s.TLB.length := by
    have := h.hCnt
    have := h.hTl
    omega
  obtain ⟨r, hr⟩ := tlbScan_defined s.TLB w _ _ hb
  cases r with
  | none => exact hr
  | some pfn =>
    obtain ⟨j, e, _, h2, h3, _, h5, _⟩ := tlbScan_some _ _ _ _ _ hr
    obtain ⟨_, g2, g3⟩ := h.hTLB j e (by omega) h3
    rw [h5, hp] at g2
    exact absurd (Option.some.inj g2).symm g3

theorem findFrame_total (s : State) (h : Inv s) :
    ∃ r, findFrame s.freeFrames 0 s.totalFrames = some r :=
  findFrame_defined _ _ _ (by have := h.hFl; omega)

set_option maxRecDepth 100000 in
theorem run_ninePages : run (setup 5 9 16 8) ninePages = some fullState := by decide

set_option maxRecDepth 100000 in
theorem fullState_unmapped :
    fullState.pageTable[vpnOf fullState 0xFFFFFFFFFFFFFFFF]? = some unmapped := by decide

set_option maxRecDepth 100000 in
theorem translate_first :
    translate (setup 5 9 16 8) 0x23450000000000 =
      some ⟨0, some ⟨0, false, true⟩, firstState⟩ := by decide

set_option maxRecDepth 100000 in
theorem translate_second :
    translate firstState 0x0100000000000000 =
      some ⟨0, some ⟨281474976710656, false, true⟩, secondState⟩ := by decide

/-! ## Exhaustion and the counters -/

/-- C1 (exhaustion): in a state reached from `setup` by any sequence of
`translate` calls, if `allocatedPages` equals `totalFrames`, the translation of
an address whose VPN has no page-table mapping returns 1 and `status` reports
the same three counters afterwards. -/
theorem C1_exhaustion (t f p v : Nat) (addrs : List Nat) (s : State) (a : Nat)
    (hr : run (setup t f p v) addrs = some s)
    (hfull : s.allocatedPages = s.totalFrames)
    (hp : s.pageTable[vpnOf s a]? = some unmapped) :
    ∃ o, translate s a = some o ∧ o.ret = 1 ∧ status o.state = status s := by
  have h := inv_reachable t f p v addrs s hr
  have hs := scan_miss_of_unmapped s _ h hp
  obtain ⟨r, hf⟩ := findFrame_total s h
  cases r with
  | none => exact ⟨_, path_translate s a _ (Path.full hs hp hf), rfl, rfl⟩
  | some frame =>
    obtain ⟨_, _, _, _, hpos⟩ := findFrame_bound s frame h hf
    have := h.hSum
    omega

theorem C1_exhaustion_witness :
    ∃ o, translate fullState 0xFFFFFFFFFFFFFFFF = some o ∧ o.ret = 1 ∧
      status o.state = status fullState :=
  C1_exhaustion 5 9 16 8 ninePages fullState 0xFFFFFFFFFFFFFFFF run_ninePages rfl
    fullState_unmapped

/-- C2 (atomicity of failure): whenever `translate` returns a non-zero code,
the globals after the call are the globals before it: TLB, FIFO index, page
table, frame table and the three counters. -/
theorem C2_failure_atomic (s : State) (a : Nat) (o : Outcome)
    (ht : translate s a = some o) (hret : o.ret ≠ 0) : o.state = s := by
  cases translate_path s a o ht with
  | hit pfn hs => exact absurd rfl hret
  | table entry hs hp hu hi hm => exact absurd rfl hret
  | full hs hp hf => rfl
  | fresh frame hs hp hf hi hm => exact absurd rfl hret

set_option maxRecDepth 100000 in
theorem C2_failure_atomic_witness :
    (⟨1, none, fullState⟩ : Outcome).state = fullState :=
  C2_failure_atomic fullState 0xFFFFFFFFFFFFFFFF ⟨1, none, fullState⟩ (by decide) (by decide)

/-- C3 (counter identity): in every state reached from `setup` by any sequence
of `translate` calls, `allocatedPages + freeFrameCount = totalFrames` as
natural numbers, each of the three below 2^16, with `totalFrames` the
configured number of frames. -/
theorem C3_counter_identity (t f p v : Nat) (addrs : List Nat) (s : State)
    (hr : run (setup t f p v) addrs = some s) :
    s.allocatedPages + s.freeFrameCount = s.totalFrames ∧
      s.totalFrames = f % 65536 ∧ s.allocatedPages < 65536 ∧ s.freeFrameCount < 65536 := by
  have h := inv_reachable t f p v addrs s hr
  have hc := (run_config addrs _ s hr).2.1
  have h1 := h.hSum
  have h2 := h.hT
  refine ⟨h1, hc, by omega, by omega⟩

theorem C3_counter_identity_witness :
    fullState.allocatedPages + fullState.freeFrameCount = fullState.totalFrames ∧
      fullState.totalFrames = 9 % 65536 ∧ fullState.allocatedPages < 65536 ∧
      fullState.freeFrameCount < 65536 :=
  C3_counter_identity 5 9 16 8 ninePages fullState run_ninePages

/-- C4 (capacity bound): in every state reached from `setup` by any sequence
of `translate` calls, `tlbEntriesCount ≤ tlbMaxSize` and
`allocatedPages ≤ totalFrames`. -/
theorem C4_capacity_bound (t f p v : Nat) (addrs : List Nat) (s : State)
    (hr : run (setup t f p v) addrs = some s) :
    s.tlbEntriesCount ≤ s.tlbMaxSize ∧ s.allocatedPages ≤ s.totalFrames := by
  have h := inv_reachable t f p v addrs s hr
  have h1 := h.hSum
  exact ⟨h.hCnt, by omega⟩

theorem C4_capacity_bound_witness :
    fullState.tlbEntriesCount ≤ fullState.tlbMaxSize ∧
      fullState.allocatedPages ≤ fullState.totalFrames :=
  C4_capacity_bound 5 9 16 8 ninePages fullState run_ninePages

/-! ## Mappings: what a successful call establishes and what later calls keep -/

theorem vpnOf_congr (s s1 : State) (a : Nat) (h : s1.vpnBits = s.vpnBits) :
    vpnOf s1 a = vpnOf s a := by
  unfold vpnOf; rw [h]

theorem offsetOf_congr (s s1 : State) (a : Nat) (h : s1.pfnBits = s.pfnBits) :
    offsetOf s1 a = offsetOf s a := by
  unfold offsetOf; rw [h]

theorem phyAddr_congr (s s1 : State) (pfn off : Nat) (h : s1.pfnBits = s.pfnBits) :
    phyAddr s1 pfn off = phyAddr s pfn off := by
  unfold phyAddr; rw [h]

theorem frameField_congr (s s1 : State) (x : Nat) (h : s1.pfnBits = s.pfnBits) :
    frameField s1 x = frameField s x := by
  unfold frameField; rw [h]

/-- A TLB hit returns the frame the page table holds for the VPN. -/
theorem scan_hit_mapped (s : State) (w pfn : Nat) (h : Inv s)
    (hs : tlbScan s.TLB w 0 s.tlbEntriesCount = some (some pfn)) :
    s.pageTable[w]? = some pfn ∧ pfn ≠ unmapped := by
  obtain ⟨j, e, _, h2, h3, _, h5, h6⟩ := tlbScan_some _ _ _ _ _ hs
  obtain ⟨_, g2, g3⟩ := h.hTLB j e (by omega) h3
  rw [h5, h6] at g2
  rw [h6] at g3
  exact ⟨g2, g3⟩

theorem cached_inserted (s : State) (w pfn : Nat) (h1 : s.tlbIndex < s.tlbMaxSize)
    (h2 : s.tlbEntriesCount < s.tlbMaxSize → s.tlbIndex = s.tlbEntriesCount)
    (h3 : s.tlbEntriesCount ≤ s.tlbMaxSize) (h4 : s.tlbMaxSize < 256)
    (h5 : s.TLB.length = s.tlbMaxSize) :
    Cached (inserted s w pfn) w := by
  refine ⟨s.tlbIndex, ⟨w, pfn, true⟩, ?_, ?_, rfl, rfl⟩
  · show s.tlbIndex < (if s.tlbEntriesCount < s.tlbMaxSize then (s.tlbEntriesCount + 1) % 256
      else s.tlbEntriesCount)
    split
    · rename_i hlt
      rw [Nat.mod_eq_of_lt (by omega), h2 hlt]
      omega
    · omega
  · show (s.TLB.set s.tlbIndex ⟨w, pfn, true⟩)[s.tlbIndex]? = some ⟨w, pfn, true⟩
    exact List.getElem?_set_self (by rw [h5]; exact h1)

/-- What a successful call leaves behind: the VPN is mapped in the page table
to the frame the result was built from, and it has a live TLB entry. -/
theorem translate_success (s : State) (a : Nat) (o : Outcome) (h : Inv s)
    (ht : translate s a = some o) (hret : o.ret = 0) :
    ∃ pfn r, o.result = some r ∧ r.phy_address = phyAddr s pfn (offsetOf s a) ∧
      o.state.pageTable[vpnOf s a]? = some pfn ∧ pfn ≠ unmapped ∧
      Cached o.state (vpnOf s a) := by
  cases translate_path s a o ht with
  | hit pfn hs =>
    obtain ⟨g1, g2⟩ := scan_hit_mapped s _ pfn h hs
    obtain ⟨j, e, _, h2, h3, h4, h5, _⟩ := tlbScan_some _ _ _ _ _ hs
    have hj : j < s.tlbEntriesCount := by omega
    exact ⟨pfn, _, rfl, rfl, g1, g2, j, e, hj, h3, h4, h5⟩
  | table entry hs hp hu hi hm =>
    exact ⟨entry, _, rfl, rfl, hp, hu,
      cached_inserted s _ _ (h.hIdx hm) h.hIdxCnt h.hCnt h.hM h.hTl⟩
  | full hs hp hf => exact absurd hret (by intro hc; cases hc)
  | fresh frame hs hp hf hi hm =>
    obtain ⟨hlt, hmod, hne, hfree, hpos⟩ := findFrame_bound s frame h hf
    have hvlen : vpnOf s a < s.pageTable.length := by
      rw [h.hPl]; exact vpnOf_lt_pageCount s a
    refine ⟨frame % 65536, _, rfl, rfl, ?_, by rw [hmod]; exact hne, ?_⟩
    · show (s.pageTable.set (vpnOf s a) (frame % 65536))[vpnOf s a]? = some (frame % 65536)
      exact List.getElem?_set_self hvlen
    · exact cached_inserted (allocated s (vpnOf s a) frame) _ _ (h.hIdx hm) h.hIdxCnt h.hCnt
        h.hM h.hTl


theorem or_shiftRight_of_lt (x y k : Nat) (h : y < 2 ^ k) : (x ||| y) >>> k = x >>> k := by
  apply Nat.eq_of_testBit_eq
  intro j
  have hy : y.testBit (k + j) = false :=
    Nat.testBit_lt_two_pow (lt_of_lt_of_le h (Nat.pow_le_pow_right (by norm_num) (by omega)))
  rw [Nat.testBit_shiftRight, Nat.testBit_shiftRight, Nat.testBit_or, hy, Bool.or_false]

theorem frameField_phyAddr (s : State) (pfn a : Nat) :
    frameField s (phyAddr s pfn (offsetOf s a)) =
      shr64 (shl64 pfn (64 - (s.pfnBits : Int))) (64 - (s.pfnBits : Int)) := by
  unfold frameField phyAddr offsetOf shr64
  rw [intMask_eq, Nat.and_pow_two_sub_one_eq_mod]
  have hle : ((64 - (s.pfnBits : Int)) % 32).toNat ≤ ((64 - (s.pfnBits : Int)) % 64).toNat := by
    omega
  exact or_shiftRight_of_lt _ _ _
    (lt_of_lt_of_le (Nat.mod_lt _ (Nat.two_pow_pos _)) (Nat.pow_le_pow_right (by norm_num) hle))

theorem shr64_shl64 (s : State) (pfn : Nat) (hb : s.pfnBits ≤ 64) (hp : pfn < 2 ^ s.pfnBits) :
    shr64 (shl64 pfn (64 - (s.pfnBits : Int))) (64 - (s.pfnBits : Int)) = pfn := by
  unfold shr64 shl64
  rw [Nat.shiftLeft_eq, Nat.shiftRight_eq_div_pow]
  have hpos : 0 < 2 ^ ((64 - (s.pfnBits : Int)) % 64).toNat := Nat.two_pow_pos _
  have hlt : pfn * 2 ^ ((64 - (s.pfnBits : Int)) % 64).toNat < 2 ^ 64 := by
    by_cases h0 : s.pfnBits = 0
    · rw [h0] at hp ⊢
      simp at hp
      subst hp
      simp
    · have hk : ((64 - (s.pfnBits : Int)) % 64).toNat = 64 - s.pfnBits := by omega
      rw [hk]
      calc pfn * 2 ^ (64 - s.pfnBits) < 2 ^ s.pfnBits * 2 ^ (64 - s.pfnBits) :=
            Nat.mul_lt_mul_of_pos_right hp (Nat.two_pow_pos _)
        _ = 2 ^ 64 := by rw [← Nat.pow_add]; congr 1; omega
  rw [Nat.mod_eq_of_lt hlt, Nat.mul_div_cancel _ hpos]
/-- A VPN with a live TLB entry is translated by a hit, from the frame the page
table holds, and the globals are untouched. -/
theorem translate_cached (s : State) (a : Nat) (h : Inv s) (hc : Cached s (vpnOf s a)) :
    ∃ pfn, s.pageTable[vpnOf s a]? = some pfn ∧ pfn ≠ unmapped ∧
      translate s a = some ⟨0, some ⟨phyAddr s pfn (offsetOf s a), true, false⟩, s⟩ := by
  obtain ⟨j, e, h1, h2, h3, h4⟩ := hc
  have hb : 0 + s.tlbEntriesCount ≤ s.TLB.length := by
    have := h.hCnt
    have := h.hTl
    omega
  obtain ⟨pfn, hs⟩ := tlbScan_hit_of_mem s.TLB (vpnOf s a) _ 0 hb
    ⟨j, e, Nat.zero_le _, by omega, h2, h3, h4⟩
  obtain ⟨g1, g2⟩ := scan_hit_mapped s _ pfn h hs
  exact ⟨pfn, g1, g2, path_translate s a _ (Path.hit pfn hs)⟩

/-- A VPN the page table maps is translated successfully, from the mapped
frame and without a new frame, as soon as the TLB has room for one entry. -/
theorem translate_mapped (s : State) (a pfn : Nat) (h : Inv s) (hm : s.tlbMaxSize ≠ 0)
    (hp : s.pageTable[vpnOf s a]? = some pfn) (hu : pfn ≠ unmapped) :
    ∃ o hit, translate s a = some o ∧ o.ret = 0 ∧
      o.result = some ⟨phyAddr s pfn (offsetOf s a), hit, false⟩ := by
  have hb : 0 + s.tlbEntriesCount ≤ s.TLB.length := by
    have := h.hCnt
    have := h.hTl
    omega
  obtain ⟨r, hs⟩ := tlbScan_defined s.TLB (vpnOf s a) _ 0 hb
  cases r with
  | some q =>
    obtain ⟨g1, _⟩ := scan_hit_mapped s _ q h hs
    rw [hp] at g1
    cases g1
    exact ⟨_, true, path_translate s a _ (Path.hit pfn hs), rfl, rfl⟩
  | none =>
    have hi : s.tlbIndex < s.TLB.length := by rw [h.hTl]; exact h.hIdx hm
    exact ⟨_, false, path_translate s a _ (Path.table pfn hs hp hu hi hm), rfl, rfl⟩

/-- A mapped page-table slot is never rewritten. -/
theorem translate_keeps (s : State) (a : Nat) (o : Outcome) (w pfn : Nat) (_h : Inv s)
    (ht : translate s a = some o) (hp : s.pageTable[w]? = some pfn) (hu : pfn ≠ unmapped) :
    o.state.pageTable[w]? = some pfn := by
  cases translate_path s a o ht with
  | hit q hs => exact hp
  | table entry hs hq hu2 hi hm => exact hp
  | full hs hq hf => exact hp
  | fresh frame hs hq hf hi hm =>
    show (s.pageTable.set (vpnOf s a) (frame % 65536))[w]? = some pfn
    have hne : vpnOf s a ≠ w := by
      intro hc
      rw [hc, hp] at hq
      exact hu (Option.some.inj hq)
    rw [List.getElem?_set_ne hne]; exact hp

theorem run_keeps (addrs : List Nat) : ∀ (s s1 : State) (w pfn : Nat), Inv s →
    run s addrs = some s1 → s.pageTable[w]? = some pfn → pfn ≠ unmapped →
    s1.pageTable[w]? = some pfn := by
  induction addrs with
  | nil =>
    intro s s1 w pfn _ hr hp _
    simp only [run, Option.some.injEq] at hr
    exact hr ▸ hp
  | cons a as ih =>
    intro s s1 w pfn h hr hp hu
    simp only [run] at hr
    cases ht : translate s a with
    | none => simp [ht] at hr
    | some o =>
      simp only [ht] at hr
      exact ih o.state s1 w pfn (inv_translate s a o h ht) hr
        (translate_keeps s a o w pfn h ht hp hu) hu

theorem cached_pos (s : State) (w : Nat) (h : Inv s) (hc : Cached s w) : s.tlbMaxSize ≠ 0 := by
  obtain ⟨j, _, h1, _⟩ := hc
  have := h.hCnt
  omega

/-! ## Repeated and later translations of a page -/

/-- C5 (idempotent hit): in a state reached from `setup`, if `translate a`
succeeds, an immediately following `translate a1` for an address with the same
VPN succeeds as a TLB hit without a new frame and leaves the globals as they
are; its physical address has the same frame-number field as the first
result, and the same physical address when `a1 = a`. -/
theorem C5_idempotent_hit (t f p v : Nat) (addrs : List Nat) (s : State) (a a1 : Nat)
    (o1 : Outcome) (hr : run (setup t f p v) addrs = some s)
    (ht : translate s a = some o1) (hret : o1.ret = 0) (hv : vpnOf s a1 = vpnOf s a) :
    ∃ r1 r2, o1.result = some r1 ∧ translate o1.state a1 = some ⟨0, some r2, o1.state⟩ ∧
      r2.tlb_hit = true ∧ r2.new_frame = false ∧
      frameField s r2.phy_address = frameField s r1.phy_address ∧
      (a1 = a → r2.phy_address = r1.phy_address) := by
  have h := inv_reachable t f p v addrs s hr
  have h1 := inv_translate s a o1 h ht
  obtain ⟨_, _, c3, c4⟩ := translate_config s a o1 ht
  obtain ⟨pfn, r1, e1, e2, e3, _, e5⟩ := translate_success s a o1 h ht hret
  have hv1 : vpnOf o1.state a1 = vpnOf s a := by rw [vpnOf_congr s o1.state a1 c4, hv]
  rw [← hv1] at e5 e3
  obtain ⟨q, g1, _, g3⟩ := translate_cached o1.state a1 h1 e5
  rw [e3] at g1
  cases g1
  refine ⟨r1, _, e1, g3, rfl, rfl, ?_, ?_⟩
  · rw [e2, phyAddr_congr s o1.state _ _ c3, offsetOf_congr s o1.state _ c3,
      frameField_phyAddr, frameField_phyAddr]
  · intro hEq
    rw [e2, phyAddr_congr s o1.state _ _ c3, offsetOf_congr s o1.state _ c3, hEq]

set_option maxRecDepth 100000 in
theorem C5_idempotent_hit_witness :
    ∃ r1 r2, (⟨0, some ⟨0, false, true⟩, firstState⟩ : Outcome).result = some r1 ∧
      translate firstState 0x23FF0000005678 = some ⟨0, some r2, firstState⟩ ∧
      r2.tlb_hit = true ∧ r2.new_frame = false ∧
      frameField (setup 5 9 16 8) r2.phy_address = frameField (setup 5 9 16 8) r1.phy_address ∧
      (0x23FF0000005678 = 0x23450000000000 → r2.phy_address = r1.phy_address) :=
  C5_idempotent_hit 5 9 16 8 [] (setup 5 9 16 8) 0x23450000000000 0x23FF0000005678
    ⟨0, some ⟨0, false, true⟩, firstState⟩ rfl translate_first rfl (by decide)

/-- C7 (stable mapping): once `translate a` has succeeded in a session, every
later `translate a` of the session is defined, returns 0, reports
`new_frame = false` and gives the same physical address, whatever calls
(successful or failing) came in between. -/
theorem C7_stable_mapping (t f p v : Nat) (pre mid : List Nat) (s0 s2 : State) (a : Nat)
    (o1 : Outcome) (hr : run (setup t f p v) pre = some s0)
    (ht : translate s0 a = some o1) (hret : o1.ret = 0)
    (hmid : run o1.state mid = some s2) :
    ∃ r1 o2 r2, o1.result = some r1 ∧ translate s2 a = some o2 ∧ o2.ret = 0 ∧
      o2.result = some r2 ∧ r2.phy_address = r1.phy_address ∧ r2.new_frame = false := by
  have h := inv_reachable t f p v pre s0 hr
  have h1 := inv_translate s0 a o1 h ht
  have h2 := inv_run mid o1.state s2 h1 hmid
  obtain ⟨c1, _, c3, c4⟩ := translate_config s0 a o1 ht
  obtain ⟨d1, _, d3, d4⟩ := run_config mid o1.state s2 hmid
  obtain ⟨pfn, r1, e1, e2, e3, e4, e5⟩ := translate_success s0 a o1 h ht hret
  have hm : s2.tlbMaxSize ≠ 0 := by
    rw [d1]; exact cached_pos o1.state _ h1 e5
  have hv : vpnOf s2 a = vpnOf s0 a := by
    rw [vpnOf_congr o1.state s2 a d4, vpnOf_congr s0 o1.state a c4]
  have e6 := run_keeps mid o1.state s2 _ pfn h1 hmid e3 e4
  rw [← hv] at e6
  obtain ⟨o2, hit, g1, g2, g3⟩ := translate_mapped s2 a pfn h2 hm e6 e4
  refine ⟨r1, o2, _, e1, g1, g2, g3, ?_, rfl⟩
  rw [e2]
  show phyAddr s2 pfn (offsetOf s2 a) = phyAddr s0 pfn (offsetOf s0 a)
  rw [phyAddr_congr o1.state s2 _ _ d3, phyAddr_congr s0 o1.state _ _ c3,
    offsetOf_congr o1.state s2 _ d3, offsetOf_congr s0 o1.state _ c3]

set_option maxRecDepth 100000 in
theorem C7_stable_mapping_witness :
    ∃ r1 o2 r2, (⟨0, some ⟨0, false, true⟩, firstState⟩ : Outcome).result = some r1 ∧
      translate firstState 0x23450000000000 = some o2 ∧ o2.ret = 0 ∧
      o2.result = some r2 ∧ r2.phy_address = r1.phy_address ∧ r2.new_frame = false :=
  C7_stable_mapping 5 9 16 8 []
    [0x23FF0000005678, 0x11FF0000000000, 0x11FF0000000000, 0x18FF0000000000,
      0x19080000000000, 0x11FF0000000000]
    (setup 5 9 16 8) firstState 0x23450000000000 ⟨0, some ⟨0, false, true⟩, firstState⟩
    rfl translate_first rfl (by decide)

/-- C8 (uniqueness of mappings), the claim as worded at `setup(2, 3, 65, 2)`:
`totalFrames = 3 ≤ 2 ^ 65` holds, the addresses `0` and `0x8000000000000000`
have the VPNs 0 and 2 and are translated successfully in one session, to the
frames 0 and 2, yet both physical addresses are 0 (the shift count `64 - 65`
acts as 63, which pushes frame 2 out of the 64 bits), so their frame-number
fields are equal, both 0. -/
theorem C8_wide_pfn_fields_collide :
    (setup 2 3 65 2).totalFrames ≤ 2 ^ (setup 2 3 65 2).pfnBits ∧
      vpnOf (setup 2 3 65 2) 0 = 0 ∧ vpnOf (setup 2 3 65 2) 0x8000000000000000 = 2 ∧
      runResults (setup 2 3 65 2) [0, 0x4000000000000000, 0x8000000000000000] =
        some [(0, some ⟨0, false, true⟩), (0, some ⟨9223372036854775808, false, true⟩),
          (0, some ⟨0, false, true⟩)] ∧
      (run (setup 2 3 65 2) [0, 0x4000000000000000, 0x8000000000000000]).map
        (fun s => s.pageTable) = some [0, 1, 2, unmapped] ∧
      frameField (setup 2 3 65 2) 0 = 0 := by
  set_option maxRecDepth 100000 in decide

/-- C8 (uniqueness of mappings), amended: in every state reached from `setup`
the page table is injective on its mapped slots; and when
`totalFrames ≤ 2 ^ pfnBits` and `pfnBits ≤ 64`, two successful translations of
a session whose addresses have different VPNs return physical addresses with
different frame-number fields. -/
theorem C8_unique_mappings (t f p v : Nat) (pre : List Nat) (s1 : State)
    (hr : run (setup t f p v) pre = some s1) :
    (∀ (w1 w2 pfn : Nat), s1.pageTable[w1]? = some pfn → s1.pageTable[w2]? = some pfn →
        pfn ≠ unmapped → w1 = w2) ∧
    (∀ (mid : List Nat) (s2 : State) (a b : Nat) (o1 o2 : Outcome),
        translate s1 a = some o1 → o1.ret = 0 → run o1.state mid = some s2 →
        translate s2 b = some o2 → o2.ret = 0 → vpnOf s1 a ≠ vpnOf s1 b →
        s1.totalFrames ≤ 2 ^ s1.pfnBits → s1.pfnBits ≤ 64 →
        ∃ r1 r2, o1.result = some r1 ∧ o2.result = some r2 ∧
          frameField s1 r1.phy_address ≠ frameField s1 r2.phy_address) := by
  have h := inv_reachable t f p v pre s1 hr
  refine ⟨h.hInj, ?_⟩
  intro mid s2 a b o1 o2 ht1 hret1 hmid ht2 hret2 hne htot hbits
  have h1 := inv_translate s1 a o1 h ht1
  have h2 := inv_run mid o1.state s2 h1 hmid
  have h3 := inv_translate s2 b o2 h2 ht2
  obtain ⟨_, c2, c3, c4⟩ := translate_config s1 a o1 ht1
  obtain ⟨_, d2, d3, d4⟩ := run_config mid o1.state s2 hmid
  obtain ⟨_, k2, _, _⟩ := translate_config s2 b o2 ht2
  obtain ⟨pfn1, r1, e1, e2, e3, e4, _⟩ := translate_success s1 a o1 h ht1 hret1
  obtain ⟨pfn2, r2, g1, g2, g3, g4, _⟩ := translate_success s2 b o2 h2 ht2 hret2
  have e5 := translate_keeps s2 b o2 _ pfn1 h2 ht2
    (run_keeps mid o1.state s2 _ pfn1 h1 hmid e3 e4) e4
  have hvb : vpnOf s2 b = vpnOf s1 b := by
    rw [vpnOf_congr o1.state s2 b d4, vpnOf_congr s1 o1.state b c4]
  rw [hvb] at g3
  have hpne : pfn1 ≠ pfn2 := by
    intro hc
    rw [← hc] at g3
    exact hne (h3.hInj _ _ pfn1 e5 g3 e4)
  have hb1 : pfn1 < 2 ^ s1.pfnBits := by
    have q := h3.hPT _ pfn1 e5 e4
    have q1 : pfn1 < o2.state.freeFrames.length := by
      by_contra hc
      rw [List.getElem?_eq_none (by omega)] at q
      cases q
    rw [h3.hFl, k2, d2, c2] at q1
    omega
  have hb2 : pfn2 < 2 ^ s1.pfnBits := by
    have q := h3.hPT _ pfn2 g3 g4
    have q1 : pfn2 < o2.state.freeFrames.length := by
      by_contra hc
      rw [List.getElem?_eq_none (by omega)] at q
      cases q
    rw [h3.hFl, k2, d2, c2] at q1
    omega
  refine ⟨r1, r2, e1, g1, ?_⟩
  have hs2 : s2.pfnBits = s1.pfnBits := d3.trans c3
  rw [e2, g2, phyAddr_congr s1 s2 _ _ hs2, offsetOf_congr s1 s2 _ hs2,
    frameField_phyAddr, frameField_phyAddr, shr64_shl64 s1 pfn1 hbits hb1,
    shr64_shl64 s1 pfn2 hbits hb2]
  exact hpne

set_option maxRecDepth 100000 in
theorem C8_unique_mappings_witness :
    ∃ r1 r2, (⟨0, some ⟨0, false, true⟩, firstState⟩ : Outcome).result = some r1 ∧
      (⟨0, some ⟨281474976710656, false, true⟩, secondState⟩ : Outcome).result = some r2 ∧
      frameField (setup 5 9 16 8) r1.phy_address ≠ frameField (setup 5 9 16 8) r2.phy_address :=
  (C8_unique_mappings 5 9 16 8 [] (setup 5 9 16 8) rfl).2 [] firstState
    0x23450000000000 0x0100000000000000 _ _ translate_first rfl rfl translate_second rfl
    (by decide) (by decide) (by decide)

/-! ## FIFO replacement from a fresh engine -/

theorem window_unique (M n i j : Nat) (hi : i < n) (hi2 : n ≤ i + M) (hj : j < n)
    (hj2 : n ≤ j + M) (h : i % M = j % M) : i = j := by
  have h1 : Nat.ModEq M i j := h
  apply h1.eq_of_abs_lt
  rw [abs_lt]
  constructor <;> omega

theorem fifo_setup (t f p v : Nat) : Fifo [] (setup t f p v) where
  alloc := rfl
  idx := (Nat.zero_mod _).symm
  cnt := (Nat.zero_min _).symm
  mapped := by
    intro w hw
    dsimp only [setup] at hw ⊢
    rw [List.length_replicate] at hw
    constructor
    · intro _; exact List.not_mem_nil w
    · intro _
      exact List.getElem?_replicate_of_lt hw
  live := by
    intro j hj
    exact absurd hj (Nat.not_lt_zero j)

theorem findFrame_of_free (s : State) (h : Inv s) (hpos : 1 ≤ s.freeFrameCount) :
    ∃ frame, findFrame s.freeFrames 0 s.totalFrames = some (some frame) := by
  obtain ⟨r, hf⟩ := findFrame_total s h
  cases r with
  | some frame => exact ⟨frame, hf⟩
  | none =>
    have hall := findFrame_none _ _ _ hf
    have hc : 0 < s.freeFrames.count true := by rw [h.hFc]; exact hpos
    obtain ⟨n, hn⟩ := List.mem_iff_getElem?.mp (List.count_pos_iff.mp hc)
    have hlt : n < s.freeFrames.length := by
      by_contra hge
      rw [List.getElem?_eq_none (by omega)] at hn
      cases hn
    rw [h.hFl] at hlt
    rw [hall n (Nat.zero_le _) (by omega)] at hn
    cases hn

/-- One more distinct page on a fresh-engine session: the call takes the
allocation path and the FIFO description moves on by one page. -/
theorem fifo_step (vs : List Nat) (s : State) (a : Nat) (h : Inv s) (hf : Fifo vs s)
    (hm : s.tlbMaxSize ≠ 0) (hroom : vs.length < s.totalFrames) (hnew : vpnOf s a ∉ vs) :
    ∃ o pa, translate s a = some o ∧ o.ret = 0 ∧ o.result = some ⟨pa, false, true⟩ ∧
      Fifo (vs ++ [vpnOf s a]) o.state := by
  have hvlen : vpnOf s a < s.pageTable.length := by
    rw [h.hPl]; exact vpnOf_lt_pageCount s a
  have hp : s.pageTable[vpnOf s a]? = some unmapped := (hf.mapped _ hvlen).mpr hnew
  have hs := scan_miss_of_unmapped s _ h hp
  have hsum := h.hSum
  have halloc := hf.alloc
  have hT := h.hT
  have hM := h.hM
  have hidx := h.hIdx hm
  have hcnt := hf.cnt
  obtain ⟨frame, hfr⟩ := findFrame_of_free s h (by omega)
  obtain ⟨hlt, hmod, hne, hfree, hpos⟩ := findFrame_bound s frame h hfr
  have hi : s.tlbIndex < s.TLB.length := by rw [h.hTl]; exact hidx
  refine ⟨_, _, path_translate s a _ (Path.fresh frame hs hp hfr hi hm), rfl, rfl, ?_⟩
  have hk : (s.tlbIndex + 1) % s.tlbMaxSize = (vs.length + 1) % s.tlbMaxSize := by
    rw [hf.idx, Nat.mod_add_mod]
  have hklt : (vs.length + 1) % s.tlbMaxSize < s.tlbMaxSize :=
    Nat.mod_lt _ (Nat.pos_of_ne_zero hm)
  constructor
  · show (s.allocatedPages + 1) % 65536 = (vs ++ [vpnOf s a]).length
    rw [List.length_append, List.length_singleton]
    omega
  · show ((s.tlbIndex + 1) % s.tlbMaxSize) % 256 = (vs ++ [vpnOf s a]).length % s.tlbMaxSize
    rw [List.length_append, List.length_singleton, hk]
    exact Nat.mod_eq_of_lt (by omega)
  · show (if s.tlbEntriesCount < s.tlbMaxSize then (s.tlbEntriesCount + 1) % 256
      else s.tlbEntriesCount) = min (vs ++ [vpnOf s a]).length s.tlbMaxSize
    rw [List.length_append, List.length_singleton]
    split <;> omega
  · intro w hw
    show (s.pageTable.set (vpnOf s a) (frame % 65536))[w]? = some unmapped ↔ _
    have hw1 : w < s.pageTable.length := by
      have : w < (s.pageTable.set (vpnOf s a) (frame % 65536)).length := hw
      rwa [List.length_set] at this
    rw [List.mem_append, List.mem_singleton]
    by_cases hwv : vpnOf s a = w
    · subst hwv
      rw [List.getElem?_set_self hvlen, hmod]
      constructor
      · intro hc; exact absurd (Option.some.inj hc) hne
      · intro hc; exact absurd (Or.inr rfl) hc
    · rw [List.getElem?_set_ne hwv, hf.mapped w hw1]
      constructor
      · intro hc hc2
        rcases hc2 with hc2 | hc2
        · exact hc hc2
        · exact hwv hc2.symm
      · intro hc hc2; exact hc (Or.inl hc2)
  · intro j hj
    have hj1 : j < (if s.tlbEntriesCount < s.tlbMaxSize then (s.tlbEntriesCount + 1) % 256
      else s.tlbEntriesCount) := hj
    show ∃ i e, i < (vs ++ [vpnOf s a]).length ∧ (vs ++ [vpnOf s a]).length ≤ i + s.tlbMaxSize ∧
      i % s.tlbMaxSize = j ∧
      (s.TLB.set s.tlbIndex ⟨vpnOf s a, frame % 65536, true⟩)[j]? = some e ∧
      (vs ++ [vpnOf s a])[i]? = some e.vpn
    rw [List.length_append, List.length_singleton]
    by_cases hjk : s.tlbIndex = j
    · refine ⟨vs.length, ⟨vpnOf s a, frame % 65536, true⟩, by omega, by omega, ?_, ?_, ?_⟩
      · rw [← hjk, hf.idx]
      · rw [← hjk]; exact List.getElem?_set_self hi
      · exact List.getElem?_concat_length vs _
    · have hjold : j < s.tlbEntriesCount := by
        split at hj1
        · rename_i hlt
          have e1 : s.tlbIndex = s.tlbEntriesCount := h.hIdxCnt hlt
          omega
        · exact hj1
      obtain ⟨i, e, g1, g2, g3, g4, g5⟩ := hf.live j hjold
      refine ⟨i, e, by omega, ?_, g3, ?_, ?_⟩
      · by_contra hc
        have e2 : vs.length = i + s.tlbMaxSize := by omega
        have e3 : s.tlbIndex = j := by
          rw [hf.idx, e2, Nat.add_mod_right, g3]
        exact hjk e3
      · rw [List.getElem?_set_ne hjk]; exact g4
      · rw [List.getElem?_append_left g1]; exact g5

theorem map_vpnOf_congr (s s1 : State) (as : List Nat) (h : s1.vpnBits = s.vpnBits) :
    as.map (vpnOf s1) = as.map (vpnOf s) :=
  List.map_congr_left (fun a _ => vpnOf_congr s s1 a h)

theorem fifo_run (addrs : List Nat) : ∀ (vs : List Nat) (s : State), Inv s → Fifo vs s →
    s.tlbMaxSize ≠ 0 → vs.length + addrs.length ≤ s.totalFrames →
    (vs ++ addrs.map (vpnOf s)).Nodup →
    ∃ s1, run s addrs = some s1 ∧ Fifo (vs ++ addrs.map (vpnOf s)) s1 := by
  induction addrs with
  | nil =>
    intro vs s _ hf _ _ _
    refine ⟨s, rfl, ?_⟩
    rw [List.map_nil, List.append_nil]
    exact hf
  | cons a as ih =>
    intro vs s h hf hm hroom hd
    rw [List.length_cons] at hroom
    rw [List.map_cons] at hd ⊢
    have hnew : vpnOf s a ∉ vs := by
      intro hc
      have := (List.nodup_append.mp hd).2.2
      exact this hc (List.mem_cons_self _ _)
    obtain ⟨o, pa, ht, _, _, hf1⟩ := fifo_step vs s a h hf hm (by omega) hnew
    obtain ⟨c1, c2, _, c4⟩ := translate_config s a o ht
    have hd1 : ((vs ++ [vpnOf s a]) ++ as.map (vpnOf o.state)).Nodup := by
      rw [map_vpnOf_congr s o.state as c4, List.append_assoc]
      exact hd
    obtain ⟨s1, hr1, hf2⟩ := ih (vs ++ [vpnOf s a]) o.state (inv_translate s a o h ht) hf1
      (by rw [c1]; exact hm)
      (by rw [c2, List.length_append, List.length_singleton]; omega) hd1
    refine ⟨s1, ?_, ?_⟩
    · simp only [run, ht]
      exact hr1
    · rw [map_vpnOf_congr s o.state as c4, List.append_assoc] at hf2
      exact hf2

/-- C6 (FIFO eviction): on a freshly set-up engine with `tlbMaxSize ≥ 1`, after
the translation of `n > tlbMaxSize` addresses with pairwise distinct VPNs
(`n ≤ totalFrames`), a further translation of an address with the first VPN is
a TLB miss without a new frame, and a further translation of an address with
one of the last `tlbMaxSize` VPNs is a TLB hit. -/
theorem C6_fifo_eviction (t f p v : Nat) (addrs : List Nat)
    (hm : 1 ≤ (setup t f p v).tlbMaxSize)
    (hn : (setup t f p v).tlbMaxSize < addrs.length)
    (hfr : addrs.length ≤ (setup t f p v).totalFrames)
    (hd : (addrs.map (vpnOf (setup t f p v))).Nodup) :
    ∃ s, run (setup t f p v) addrs = some s ∧
      (∀ (a0 b : Nat), addrs[0]? = some a0 → vpnOf s b = vpnOf s a0 →
        ∃ o pa, translate s b = some o ∧ o.ret = 0 ∧ o.result = some ⟨pa, false, false⟩) ∧
      (∀ (i ai b : Nat), addrs.length ≤ i + s.tlbMaxSize → addrs[i]? = some ai →
        vpnOf s b = vpnOf s ai →
        ∃ o pa, translate s b = some o ∧ o.ret = 0 ∧ o.result = some ⟨pa, true, false⟩) := by
  have h0 := inv_setup t f p v
  obtain ⟨s, hr, hf⟩ := fifo_run addrs [] (setup t f p v) h0 (fifo_setup t f p v)
    (by omega) (by rw [List.length_nil]; omega) (by rw [List.nil_append]; exact hd)
  rw [List.nil_append] at hf
  have h := inv_run addrs _ s h0 hr
  obtain ⟨c1, _, _, c4⟩ := run_config addrs _ s hr
  have hvs : addrs.map (vpnOf (setup t f p v)) = addrs.map (vpnOf s) :=
    (map_vpnOf_congr _ s addrs c4).symm
  rw [hvs] at hf hd
  rw [← c1] at hm hn
  have hlen : (addrs.map (vpnOf s)).length = addrs.length := List.length_map _ _
  have hcnt : s.tlbEntriesCount = s.tlbMaxSize := by
    have := hf.cnt
    omega
  have hm0 : s.tlbMaxSize ≠ 0 := by omega
  have hb : 0 + s.tlbEntriesCount ≤ s.TLB.length := by
    have := h.hTl
    omega
  refine ⟨s, hr, ?_, ?_⟩
  · intro a0 b ha0 hvb
    have hv0 : (addrs.map (vpnOf s))[0]? = some (vpnOf s b) := by
      rw [List.getElem?_map, ha0, hvb]; rfl
    have hvlen : vpnOf s b < s.pageTable.length := by
      rw [h.hPl]; exact vpnOf_lt_pageCount s b
    have hmem : vpnOf s b ∈ addrs.map (vpnOf s) := List.getElem?_mem hv0
    obtain ⟨entry, hentry⟩ : ∃ entry, s.pageTable[vpnOf s b]? = some entry :=
      ⟨_, List.getElem?_eq_getElem hvlen⟩
    have hu : entry ≠ unmapped := by
      intro hc
      rw [hc] at hentry
      exact (hf.mapped _ hvlen).mp hentry hmem
    obtain ⟨r, hs⟩ := tlbScan_defined s.TLB (vpnOf s b) _ 0 hb
    have hi : s.tlbIndex < s.TLB.length := by rw [h.hTl]; exact h.hIdx hm0
    cases r with
    | none => exact ⟨_, _, path_translate s b _ (Path.table entry hs hentry hu hi hm0), rfl, rfl⟩
    | some q =>
      obtain ⟨j, e, _, j2, j3, _, j5, _⟩ := tlbScan_some _ _ _ _ _ hs
      obtain ⟨i, e1, g1, g2, _, g4, g5⟩ := hf.live j (by omega)
      rw [j3] at g4
      cases g4
      rw [j5, ← hv0] at g5
      have hi0 : i = 0 := List.getElem?_inj g1 hd g5
      omega
  · intro i ai b hwin hai hvb
    have hilt : i < addrs.length := by
      by_contra hc
      rw [List.getElem?_eq_none (by omega)] at hai
      cases hai
    have hvi : (addrs.map (vpnOf s))[i]? = some (vpnOf s b) := by
      rw [List.getElem?_map, hai, hvb]; rfl
    have hj : i % s.tlbMaxSize < s.tlbEntriesCount := by
      rw [hcnt]; exact Nat.mod_lt _ (Nat.pos_of_ne_zero hm0)
    obtain ⟨i1, e, g1, g2, g3, g4, g5⟩ := hf.live _ hj
    have hEq : i1 = i := window_unique s.tlbMaxSize addrs.length i1 i (by omega) (by omega)
      hilt hwin g3
    rw [hEq, hvi] at g5
    obtain ⟨k1, _, _⟩ := h.hTLB _ e hj g4
    obtain ⟨q, _, _, k4⟩ := translate_cached s b h
      ⟨i % s.tlbMaxSize, e, hj, g4, k1, (Option.some.inj g5).symm⟩
    exact ⟨_, _, k4, rfl, rfl⟩

set_option maxRecDepth 100000 in
theorem C6_fifo_eviction_witness :
    ∃ s, run (setup 5 9 16 8) ninePages = some s ∧
      (∀ (a0 b : Nat), ninePages[0]? = some a0 → vpnOf s b = vpnOf s a0 →
        ∃ o pa, translate s b = some o ∧ o.ret = 0 ∧ o.result = some ⟨pa, false, false⟩) ∧
      (∀ (i ai b : Nat), ninePages.length ≤ i + s.tlbMaxSize → ninePages[i]? = some ai →
        vpnOf s b = vpnOf s ai →
        ∃ o pa, translate s b = some o ∧ o.ret = 0 ∧ o.result = some ⟨pa, true, false⟩) :=
  C6_fifo_eviction 5 9 16 8 ninePages (by decide) (by decide) (by decide) (by decide)

/-! ## Address arithmetic and the simulator's pages -/

/-- C9 (address arithmetic), the code at `setup(5, 9, 16, 8)` and the
simulator's address `0x0123456789ABCD` on a fresh engine: the call succeeds
with frame 0 mapped to the VPN and returns `0xABCD`, the low 16 bits of the
address, while the full 48-bit offset the claim asks for is `0x23456789ABCD`. -/
theorem C9_offset_is_masked_to_16_bits :
    translate (setup 5 9 16 8) 0x0123456789ABCD =
        some ⟨0, some ⟨0xABCD, false, true⟩, firstState⟩ ∧
      firstState.pageTable[vpnOf (setup 5 9 16 8) 0x0123456789ABCD]? = some 0 ∧
      specPhyAddr 16 0 0x0123456789ABCD = 0x23456789ABCD ∧
      offsetOf (setup 5 9 16 8) 0x0123456789ABCD = 0xABCD := by
  set_option maxRecDepth 100000 in decide

/-- C10 (fresh page as the simulator understands it), the code on the
simulator's first three addresses after `setup(5, 9, 16, 8)`: the third
address `0x11FF0000000000` differs from the first two in the bits above the
48-bit offset, yet the code takes its VPN from the top 8 bits, which are 0 for
all three, and reports a TLB hit without a new frame and status (8, 1, 1);
the status after the first 13 addresses is still (8, 1, 1). -/
theorem C10_third_simulator_address_hits :
    simulatorPage 0x11FF0000000000 ≠ simulatorPage 0x23450000000000 ∧
      simulatorPage 0x11FF0000000000 ≠ simulatorPage 0x23FF0000005678 ∧
      runResults (setup 5 9 16 8) [0x23450000000000, 0x23FF0000005678, 0x11FF0000000000] =
        some [(0, some ⟨0, false, true⟩), (0, some ⟨0x5678, true, false⟩),
          (0, some ⟨0, true, false⟩)] ∧
      (run (setup 5 9 16 8) [0x23450000000000, 0x23FF0000005678, 0x11FF0000000000]).map status =
        some ⟨8, 1, 1⟩ ∧
      (run (setup 5 9 16 8) (virt_addrs.take 13)).map status = some ⟨8, 1, 1⟩ := by
  set_option maxRecDepth 100000 in decide

/-! ## Totality and the set-up state -/

/-- With room for at least one TLB entry, `translate` is defined in every
state satisfying the invariant and ends in one of two ways: return code 0
with a result written, or return code 1 with nothing written and the globals
untouched. -/
theorem translate_total (s : State) (a : Nat) (h : Inv s) (hm : s.tlbMaxSize ≠ 0) :
    ∃ o, translate s a = some o ∧
      ((o.ret = 0 ∧ ∃ r, o.result = some r) ∨
        (o.ret = 1 ∧ o.result = none ∧ o.state = s)) := by
  have hb : 0 + s.tlbEntriesCount ≤ s.TLB.length := by
    have := h.hCnt
    have := h.hTl
    omega
  have hvlen : vpnOf s a < s.pageTable.length := by
    rw [h.hPl]; exact vpnOf_lt_pageCount s a
  have hi : s.tlbIndex < s.TLB.length := by rw [h.hTl]; exact h.hIdx hm
  obtain ⟨r, hs⟩ := tlbScan_defined s.TLB (vpnOf s a) _ 0 hb
  cases r with
  | some q => exact ⟨_, path_translate s a _ (Path.hit q hs), Or.inl ⟨rfl, _, rfl⟩⟩
  | none =>
    have hp : s.pageTable[vpnOf s a]? = some s.pageTable[vpnOf s a] :=
      List.getElem?_eq_getElem hvlen
    by_cases hu : s.pageTable[vpnOf s a] = unmapped
    · rw [hu] at hp
      obtain ⟨r2, hf⟩ := findFrame_total s h
      cases r2 with
      | none => exact ⟨_, path_translate s a _ (Path.full hs hp hf), Or.inr ⟨rfl, rfl, rfl⟩⟩
      | some frame =>
        exact ⟨_, path_translate s a _ (Path.fresh frame hs hp hf hi hm), Or.inl ⟨rfl, _, rfl⟩⟩
    · exact ⟨_, path_translate s a _ (Path.table _ hs hp hu hi hm), Or.inl ⟨rfl, _, rfl⟩⟩

/-- C11 (total outcome), the code at `setup(0, 1, 16, 8)`, a configuration
inside the documented ranges, and `translate(0)`: the TLB has no entry, the
page is unmapped and frame 0 is free, so the allocation path writes
`TLB[0]` outside the table and takes `(0 + 1) % 0`; the call has no defined
outcome. -/
theorem C11_zero_tlb_translate_undefined :
    (setup 0 1 16 8).TLB = [] ∧ (setup 0 1 16 8).tlbMaxSize = 0 ∧
      tlbScan (setup 0 1 16 8).TLB (vpnOf (setup 0 1 16 8) 0) 0
        (setup 0 1 16 8).tlbEntriesCount = some none ∧
      (setup 0 1 16 8).pageTable[vpnOf (setup 0 1 16 8) 0]? = some unmapped ∧
      findFrame (setup 0 1 16 8).freeFrames 0 (setup 0 1 16 8).totalFrames = some (some 0) ∧
      tlbInsert (allocated (setup 0 1 16 8) (vpnOf (setup 0 1 16 8) 0) 0)
        (vpnOf (setup 0 1 16 8) 0) 0 = none ∧
      translate (setup 0 1 16 8) 0 = none := by
  set_option maxRecDepth 100000 in decide

/-- C12 (set-up postcondition), the claim as worded at `setup(2, 3, 16, 32)`:
the table is sized by the `int` expression `1 << vpnBits`, whose count 32 acts
as 0, so the page table has one slot and not `2 ^ 32`. -/
theorem C12_page_table_has_one_slot :
    (setup 2 3 16 32).vpnBits = 32 ∧ (setup 2 3 16 32).pageTable = [unmapped] ∧
      (setup 2 3 16 32).pageTable.length = 1 ∧
      (setup 2 3 16 32).pageTable.length ≠ 2 ^ (setup 2 3 16 32).vpnBits := by
  set_option maxRecDepth 100000 in decide

/-- C12 (set-up postcondition), amended: after `setup` every page-table slot
is unmapped, the table has `2 ^ vpnBits` slots when `vpnBits ≤ 30` (the range
in which `1 << vpnBits` is a defined `int` shift), each of the `totalFrames`
frames is free, the TLB has `tlbMaxSize` entries, none of them live or valid,
the FIFO index is 0 and `status` reports `(totalFrames, 0, 0)`. -/
theorem C12_setup_postcondition (t f p v : Nat) :
    (∀ (w : Nat), w < (setup t f p v).pageTable.length →
        (setup t f p v).pageTable[w]? = some unmapped) ∧
      (v % 256 ≤ 30 → (setup t f p v).pageTable.length = 2 ^ (v % 256)) ∧
      (setup t f p v).vpnBits = v % 256 ∧
      (setup t f p v).totalFrames = f % 65536 ∧
      (setup t f p v).freeFrames.length = f % 65536 ∧
      (∀ (i : Nat), i < f % 65536 → (setup t f p v).freeFrames[i]? = some true) ∧
      (setup t f p v).TLB.length = t % 256 ∧
      (∀ (e : TLBEntry), e ∈ (setup t f p v).TLB → e.valid = false) ∧
      (setup t f p v).tlbEntriesCount = 0 ∧
      (setup t f p v).tlbIndex = 0 ∧
      status (setup t f p v) = ⟨f % 65536, 0, 0⟩ := by
  refine ⟨?_, ?_, rfl, rfl, ?_, ?_, ?_, ?_, rfl, rfl, rfl⟩
  · intro w hw
    dsimp only [setup] at hw ⊢
    rw [List.length_replicate] at hw
    exact List.getElem?_replicate_of_lt hw
  · intro hv
    dsimp only [setup]
    rw [List.length_replicate]
    have hk : (((v % 256 : Nat) : Int) % 32).toNat = v % 256 := by omega
    unfold shlInt32
    rw [hk]
    generalize v % 256 = k at hv
    interval_cases k <;> rfl
  · dsimp only [setup]
    exact List.length_replicate _ _
  · intro i hi
    dsimp only [setup]
    exact List.getElem?_replicate_of_lt hi
  · dsimp only [setup]
    exact List.length_replicate _ _
  · intro e he
    dsimp only [setup] at he
    rw [List.eq_of_mem_replicate he]

set_option maxRecDepth 100000 in
theorem C12_setup_postcondition_witness :
    (setup 5 9 16 8).pageTable.length = 2 ^ (8 % 256) ∧
      status (setup 5 9 16 8) = ⟨9 % 65536, 0, 0⟩ :=
  ⟨(C12_setup_postcondition 5 9 16 8).2.1 (by decide),
    (C12_setup_postcondition 5 9 16 8).2.2.2.2.2.2.2.2.2.2⟩

/-! ## The three paths, one at a time -/

set_option maxRecDepth 100000 in
theorem run_first : run (setup 5 9 16 8) [0x23450000000000] = some firstState := by decide

/-- C13 (a TLB hit is pure): in a state reached from `setup`, if a live TLB
entry (index below `tlbEntriesCount`) is valid and holds the VPN of the
address, `translate` returns 0 with `tlb_hit = true`, `new_frame = false`, the
physical address built from the PFN of that entry, and the globals are exactly
those before the call. -/
theorem C13_tlb_hit_pure (t f p v : Nat) (addrs : List Nat) (s : State) (a j : Nat)
    (e : TLBEntry) (hr : run (setup t f p v) addrs = some s)
    (hj : j < s.tlbEntriesCount) (he : s.TLB[j]? = some e) (hval : e.valid = true)
    (hvpn : e.vpn = vpnOf s a) :
    translate s a = some ⟨0, some ⟨phyAddr s e.pfn (offsetOf s a), true, false⟩, s⟩ := by
  have h := inv_reachable t f p v addrs s hr
  obtain ⟨pfn, g1, _, g3⟩ := translate_cached s a h ⟨j, e, hj, he, hval, hvpn⟩
  obtain ⟨_, k2, _⟩ := h.hTLB j e hj he
  rw [hvpn, g1] at k2
  cases k2
  exact g3

set_option maxRecDepth 100000 in
theorem C13_tlb_hit_pure_witness :
    translate firstState 0x23FF0000005678 =
      some ⟨0, some ⟨phyAddr firstState (⟨0, 0, true⟩ : TLBEntry).pfn
        (offsetOf firstState 0x23FF0000005678), true, false⟩, firstState⟩ :=
  C13_tlb_hit_pure 5 9 16 8 [0x23450000000000] firstState 0x23FF0000005678 0 ⟨0, 0, true⟩
    run_first (by decide) (by decide) rfl (by decide)

/-- C14 (page-table probe): in a state reached from `setup` with
`tlbMaxSize ≥ 1`, if no live TLB entry holds the VPN and the page-table slot of
the VPN is mapped to `pfn`, `translate` returns 0 with `tlb_hit = false`,
`new_frame = false` and the physical address built from `pfn`; the page table,
the frame table, `freeFrameCount`, `allocatedPages` and the configuration are
unchanged, and every TLB slot other than the one at the FIFO index is
unchanged. -/
theorem C14_page_table_probe (t f p v : Nat) (addrs : List Nat) (s : State) (a pfn : Nat)
    (hr : run (setup t f p v) addrs = some s) (hm : 1 ≤ s.tlbMaxSize)
    (hmiss : ∀ (j : Nat) (e : TLBEntry), j < s.tlbEntriesCount → s.TLB[j]? = some e →
      e.vpn ≠ vpnOf s a)
    (hp : s.pageTable[vpnOf s a]? = some pfn) (hu : pfn ≠ unmapped) :
    ∃ o, translate s a = some o ∧ o.ret = 0 ∧
      o.result = some ⟨phyAddr s pfn (offsetOf s a), false, false⟩ ∧
      o.state.pageTable = s.pageTable ∧ o.state.freeFrames = s.freeFrames ∧
      o.state.freeFrameCount = s.freeFrameCount ∧
      o.state.allocatedPages = s.allocatedPages ∧
      o.state.tlbMaxSize = s.tlbMaxSize ∧ o.state.totalFrames = s.totalFrames ∧
      o.state.pfnBits = s.pfnBits ∧ o.state.vpnBits = s.vpnBits ∧
      o.state.TLB.length = s.TLB.length ∧
      (∀ (j : Nat), j ≠ s.tlbIndex → o.state.TLB[j]? = s.TLB[j]?) := by
  have h := inv_reachable t f p v addrs s hr
  have hm0 : s.tlbMaxSize ≠ 0 := by omega
  have hb : 0 + s.tlbEntriesCount ≤ s.TLB.length := by
    have := h.hCnt
    have := h.hTl
    omega
  have hi : s.tlbIndex < s.TLB.length := by rw [h.hTl]; exact h.hIdx hm0
  obtain ⟨r, hs⟩ := tlbScan_defined s.TLB (vpnOf s a) _ 0 hb
  cases r with
  | some q =>
    obtain ⟨j, e, _, j2, j3, _, j5, _⟩ := tlbScan_some _ _ _ _ _ hs
    exact absurd j5 (hmiss j e (by omega) j3)
  | none =>
    refine ⟨_, path_translate s a _ (Path.table pfn hs hp hu hi hm0), rfl, rfl, rfl, rfl, rfl,
      rfl, rfl, rfl, rfl, rfl, ?_, ?_⟩
    · show (s.TLB.set _ _).length = _
      exact List.length_set _ _ _
    · intro j hj
      show (s.TLB.set s.tlbIndex _)[j]? = _
      exact List.getElem?_set_ne (Ne.symm hj)

/-- C15 (first-fit allocation): in a state reached from `setup` with
`tlbMaxSize ≥ 1`, if the page-table slot of the VPN is unmapped (the VPN is
then in no live TLB entry either) and some frame is free, `translate` returns
0 with `tlb_hit = false`, `new_frame = true`; the frame it uses is free before
the call and every frame below it is used; afterwards exactly that frame flag
and that page-table slot have changed, `freeFrameCount` is one less and
`allocatedPages` one more. -/
theorem C15_first_fit (t f p v : Nat) (addrs : List Nat) (s : State) (a i : Nat)
    (hr : run (setup t f p v) addrs = some s) (hm : 1 ≤ s.tlbMaxSize)
    (hp : s.pageTable[vpnOf s a]? = some unmapped)
    (hi : i < s.totalFrames) (hfree : s.freeFrames[i]? = some true) :
    ∃ o frame, translate s a = some o ∧ o.ret = 0 ∧
      o.result = some ⟨phyAddr s frame (offsetOf s a), false, true⟩ ∧
      frame ≤ i ∧ s.freeFrames[frame]? = some true ∧
      (∀ (j : Nat), j < frame → s.freeFrames[j]? = some false) ∧
      (∀ (j : Nat) (e : TLBEntry), j < s.tlbEntriesCount → s.TLB[j]? = some e →
        e.vpn ≠ vpnOf s a) ∧
      o.state.freeFrames = s.freeFrames.set frame false ∧
      o.state.pageTable = s.pageTable.set (vpnOf s a) frame ∧
      o.state.freeFrameCount + 1 = s.freeFrameCount ∧
      o.state.allocatedPages = s.allocatedPages + 1 := by
  have h := inv_reachable t f p v addrs s hr
  have hm0 : s.tlbMaxSize ≠ 0 := by omega
  have hs := scan_miss_of_unmapped s _ h hp
  have hidx : s.tlbIndex < s.TLB.length := by rw [h.hTl]; exact h.hIdx hm0
  obtain ⟨r, hf⟩ := findFrame_total s h
  cases r with
  | none =>
    have := findFrame_none _ _ _ hf i (Nat.zero_le _) (by omega)
    rw [hfree] at this
    cases this
  | some frame =>
    obtain ⟨hlt, hmod, hne, hfr, hpos⟩ := findFrame_bound s frame h hf
    obtain ⟨_, _, _, hmin⟩ := findFrame_some _ _ _ _ hf
    have hsum := h.hSum
    have hT := h.hT
    refine ⟨_, frame, path_translate s a _ (Path.fresh frame hs hp hf hidx hm0), rfl, ?_, ?_,
      hfr, fun j hj => hmin j (Nat.zero_le _) hj, ?_, rfl, ?_, ?_, ?_⟩
    · rw [hmod]
    · by_contra hc
      have := hmin i (Nat.zero_le _) (by omega)
      rw [hfree] at this
      cases this
    · intro j e hj he hc
      obtain ⟨_, k2, k3⟩ := h.hTLB j e hj he
      rw [hc, hp] at k2
      exact k3 (Option.some.inj k2).symm
    · show s.pageTable.set (vpnOf s a) (frame % 65536) = _
      rw [hmod]
    · show (s.freeFrameCount + 65535) % 65536 + 1 = s.freeFrameCount
      omega
    · show (s.allocatedPages + 1) % 65536 = s.allocatedPages + 1
      omega

/-- C16 (FIFO insertion step): in a state reached from `setup`, a `translate`
that returns 0 with `tlb_hit = false` has `tlbMaxSize ≥ 1`, writes
`(VPN, PFN, valid)` into the TLB slot at the old FIFO index, which lies inside
the TLB, and changes no other slot; the new FIFO index is the old one plus 1
modulo `tlbMaxSize` and the new `tlbEntriesCount` is the minimum of the old
count plus 1 and `tlbMaxSize`, both as natural numbers. -/
theorem C16_fifo_insertion (t f p v : Nat) (addrs : List Nat) (s : State) (a : Nat)
    (o : Outcome) (r : res_translate) (hr : run (setup t f p v) addrs = some s)
    (ht : translate s a = some o) (hret : o.ret = 0) (hres : o.result = some r)
    (hmiss : r.tlb_hit = false) :
    ∃ pfn, o.state.pageTable[vpnOf s a]? = some pfn ∧
      r.phy_address = phyAddr s pfn (offsetOf s a) ∧
      1 ≤ s.tlbMaxSize ∧ s.tlbMaxSize ≤ 255 ∧ s.tlbIndex < s.TLB.length ∧
      o.state.TLB = s.TLB.set s.tlbIndex ⟨vpnOf s a, pfn, true⟩ ∧
      o.state.tlbIndex = (s.tlbIndex + 1) % s.tlbMaxSize ∧
      o.state.tlbEntriesCount = min (s.tlbEntriesCount + 1) s.tlbMaxSize := by
  have h := inv_reachable t f p v addrs s hr
  have hM := h.hM
  have hcnt := h.hCnt
  have key : ∀ (s0 : State), s0.tlbMaxSize = s.tlbMaxSize → s0.tlbIndex = s.tlbIndex →
      s0.tlbEntriesCount = s.tlbEntriesCount → s.tlbMaxSize ≠ 0 →
      (inserted s0 (vpnOf s a) 0).tlbIndex = (s.tlbIndex + 1) % s.tlbMaxSize ∧
      (inserted s0 (vpnOf s a) 0).tlbEntriesCount =
        min (s.tlbEntriesCount + 1) s.tlbMaxSize := by
    intro s0 e1 e2 e3 hm
    have hlt := Nat.mod_lt (s.tlbIndex + 1) (Nat.pos_of_ne_zero hm)
    constructor
    · show ((s0.tlbIndex + 1) % s0.tlbMaxSize) % 256 = _
      rw [e1, e2]
      exact Nat.mod_eq_of_lt (by omega)
    · show (if s0.tlbEntriesCount < s0.tlbMaxSize then (s0.tlbEntriesCount + 1) % 256
        else s0.tlbEntriesCount) = _
      rw [e1, e3]
      split <;> omega
  cases translate_path s a o ht with
  | hit q hs =>
    cases hres
    cases hmiss
  | table entry hs hp hu hi hm =>
    cases hres
    obtain ⟨k1, k2⟩ := key s rfl rfl rfl hm
    exact ⟨entry, hp, rfl, by omega, by omega, hi, rfl, k1, k2⟩
  | full hs hp hf => cases hres
  | fresh frame hs hp hf hi hm =>
    cases hres
    have hvlen : vpnOf s a < s.pageTable.length := by
      rw [h.hPl]; exact vpnOf_lt_pageCount s a
    obtain ⟨k1, k2⟩ := key (allocated s (vpnOf s a) frame) rfl rfl rfl hm
    refine ⟨frame % 65536, ?_, rfl, by omega, by omega, hi, rfl, k1, k2⟩
    show (s.pageTable.set (vpnOf s a) (frame % 65536))[vpnOf s a]? = some (frame % 65536)
    exact List.getElem?_set_self hvlen

/-- C17 (monotonicity): for a state reached from `setup` and any defined
`translate` call, `allocatedPages` does not decrease, every frame that was
used before the call is used after it, and `freeFrameCount` does not
increase. -/
theorem C17_monotone (t f p v : Nat) (addrs : List Nat) (s : State) (a : Nat) (o : Outcome)
    (hr : run (setup t f p v) addrs = some s) (ht : translate s a = some o) :
    s.allocatedPages ≤ o.state.allocatedPages ∧
      (∀ (i : Nat), s.freeFrames[i]? = some false → o.state.freeFrames[i]? = some false) ∧
      o.state.freeFrameCount ≤ s.freeFrameCount := by
  have h := inv_reachable t f p v addrs s hr
  cases translate_path s a o ht with
  | hit q hs => exact ⟨le_refl _, fun _ hi => hi, le_refl _⟩
  | table entry hs hp hu hi hm => exact ⟨le_refl _, fun _ hi => hi, le_refl _⟩
  | full hs hp hf => exact ⟨le_refl _, fun _ hi => hi, le_refl _⟩
  | fresh frame hs hp hf hi hm =>
    obtain ⟨hlt, hmod, hne, hfr, hpos⟩ := findFrame_bound s frame h hf
    have hsum := h.hSum
    have hT := h.hT
    refine ⟨?_, ?_, ?_⟩
    · show s.allocatedPages ≤ (s.allocatedPages + 1) % 65536
      omega
    · intro i hi2
      show (s.freeFrames.set frame false)[i]? = some false
      by_cases hfi : frame = i
      · subst hfi
        rw [hfr] at hi2
        cases hi2
      · rw [List.getElem?_set_ne hfi]; exact hi2
    · show (s.freeFrameCount + 65535) % 65536 ≤ s.freeFrameCount
      omega

set_option maxRecDepth 100000 in
theorem fullState_misses_zero (j : Nat) (e : TLBEntry) (hj : j < fullState.tlbEntriesCount)
    (he : fullState.TLB[j]? = some e) : e.vpn ≠ vpnOf fullState 0 := by
  have hj5 : j < 5 := hj
  interval_cases j <;> (cases he; decide)

set_option maxRecDepth 100000 in
theorem C14_page_table_probe_witness :
    ∃ o, translate fullState 0 = some o ∧ o.ret = 0 ∧
      o.result = some ⟨phyAddr fullState 0 (offsetOf fullState 0), false, false⟩ ∧
      o.state.pageTable = fullState.pageTable ∧ o.state.freeFrames = fullState.freeFrames ∧
      o.state.freeFrameCount = fullState.freeFrameCount ∧
      o.state.allocatedPages = fullState.allocatedPages ∧
      o.state.tlbMaxSize = fullState.tlbMaxSize ∧
      o.state.totalFrames = fullState.totalFrames ∧
      o.state.pfnBits = fullState.pfnBits ∧ o.state.vpnBits = fullState.vpnBits ∧
      o.state.TLB.length = fullState.TLB.length ∧
      (∀ (j : Nat), j ≠ fullState.tlbIndex → o.state.TLB[j]? = fullState.TLB[j]?) :=
  C14_page_table_probe 5 9 16 8 ninePages fullState 0 0 run_ninePages (by decide)
    fullState_misses_zero (by decide) (by decide)

set_option maxRecDepth 100000 in
theorem C15_first_fit_witness :
    ∃ o frame, translate firstState 0x0100000000000000 = some o ∧ o.ret = 0 ∧
      o.result = some ⟨phyAddr firstState frame (offsetOf firstState 0x0100000000000000),
        false, true⟩ ∧
      frame ≤ 5 ∧ firstState.freeFrames[frame]? = some true ∧
      (∀ (j : Nat), j < frame → firstState.freeFrames[j]? = some false) ∧
      (∀ (j : Nat) (e : TLBEntry), j < firstState.tlbEntriesCount →
        firstState.TLB[j]? = some e → e.vpn ≠ vpnOf firstState 0x0100000000000000) ∧
      o.state.freeFrames = firstState.freeFrames.set frame false ∧
      o.state.pageTable =
        firstState.pageTable.set (vpnOf firstState 0x0100000000000000) frame ∧
      o.state.freeFrameCount + 1 = firstState.freeFrameCount ∧
      o.state.allocatedPages = firstState.allocatedPages + 1 :=
  C15_first_fit 5 9 16 8 [0x23450000000000] firstState 0x0100000000000000 5 run_first
    (by decide) (by decide) (by decide) (by decide)

set_option maxRecDepth 100000 in
theorem C16_fifo_insertion_witness :
    ∃ pfn, firstState.pageTable[vpnOf (setup 5 9 16 8) 0x23450000000000]? = some pfn ∧
      (⟨0, false, true⟩ : res_translate).phy_address =
        phyAddr (setup 5 9 16 8) pfn (offsetOf (setup 5 9 16 8) 0x23450000000000) ∧
      1 ≤ (setup 5 9 16 8).tlbMaxSize ∧ (setup 5 9 16 8).tlbMaxSize ≤ 255 ∧
      (setup 5 9 16 8).tlbIndex < (setup 5 9 16 8).TLB.length ∧
      firstState.TLB = (setup 5 9 16 8).TLB.set (setup 5 9 16 8).tlbIndex
        ⟨vpnOf (setup 5 9 16 8) 0x23450000000000, pfn, true⟩ ∧
      firstState.tlbIndex = ((setup 5 9 16 8).tlbIndex + 1) % (setup 5 9 16 8).tlbMaxSize ∧
      firstState.tlbEntriesCount =
        min ((setup 5 9 16 8).tlbEntriesCount + 1) (setup 5 9 16 8).tlbMaxSize :=
  C16_fifo_insertion 5 9 16 8 [] (setup 5 9 16 8) 0x23450000000000
    ⟨0, some ⟨0, false, true⟩, firstState⟩ ⟨0, false, true⟩ rfl translate_first rfl rfl rfl

theorem C17_monotone_witness :
    (setup 5 9 16 8).allocatedPages ≤ firstState.allocatedPages ∧
      (∀ (i : Nat), (setup 5 9 16 8).freeFrames[i]? = some false →
        firstState.freeFrames[i]? = some false) ∧
      firstState.freeFrameCount ≤ (setup 5 9 16 8).freeFrameCount :=
  C17_monotone 5 9 16 8 [] (setup 5 9 16 8) 0x23450000000000
    ⟨0, some ⟨0, false, true⟩, firstState⟩ rfl translate_first

/-! ## Consistency of the TLB with the page table -/

/-- A slot that is live after an insertion and is not the slot written was
live before. -/
theorem live_before_insert (s : State) (w pfn j : Nat)
    (h2 : s.tlbEntriesCount < s.tlbMaxSize → s.tlbIndex = s.tlbEntriesCount)
    (_h3 : s.tlbEntriesCount ≤ s.tlbMaxSize) (h4 : s.tlbMaxSize < 256)
    (hj : j < (inserted s w pfn).tlbEntriesCount) (hne : s.tlbIndex ≠ j) :
    j < s.tlbEntriesCount := by
  have hj1 : j < (if s.tlbEntriesCount < s.tlbMaxSize then (s.tlbEntriesCount + 1) % 256
      else s.tlbEntriesCount) := hj
  split at hj1
  · rename_i hlt
    have := h2 hlt
    omega
  · exact hj1

theorem distinct_inserted (s : State) (w pfn : Nat) (h1 : s.tlbIndex < s.tlbMaxSize)
    (h2 : s.tlbEntriesCount < s.tlbMaxSize → s.tlbIndex = s.tlbEntriesCount)
    (h3 : s.tlbEntriesCount ≤ s.tlbMaxSize) (h4 : s.tlbMaxSize < 256)
    (h5 : s.TLB.length = s.tlbMaxSize) (hd : TlbDistinct s)
    (hmiss : ∀ (j : Nat) (e : TLBEntry), j < s.tlbEntriesCount → s.TLB[j]? = some e →
      e.vpn ≠ w) :
    TlbDistinct (inserted s w pfn) := by
  intro i j e1 e2 hi hj he1 he2 hv
  have hlen : s.tlbIndex < s.TLB.length := by rw [h5]; exact h1
  have he1a : (s.TLB.set s.tlbIndex ⟨w, pfn, true⟩)[i]? = some e1 := he1
  have he2a : (s.TLB.set s.tlbIndex ⟨w, pfn, true⟩)[j]? = some e2 := he2
  by_cases ci : s.tlbIndex = i
  · by_cases cj : s.tlbIndex = j
    · rw [← ci, ← cj]
    · rw [← ci, List.getElem?_set_self hlen] at he1a
      rw [List.getElem?_set_ne cj] at he2a
      cases he1a
      exact absurd hv.symm (hmiss j e2 (live_before_insert s w pfn j h2 h3 h4 hj cj) he2a)
  · rw [List.getElem?_set_ne ci] at he1a
    by_cases cj : s.tlbIndex = j
    · rw [← cj, List.getElem?_set_self hlen] at he2a
      cases he2a
      exact absurd hv (hmiss i e1 (live_before_insert s w pfn i h2 h3 h4 hi ci) he1a)
    · rw [List.getElem?_set_ne cj] at he2a
      exact hd i j e1 e2 (live_before_insert s w pfn i h2 h3 h4 hi ci)
        (live_before_insert s w pfn j h2 h3 h4 hj cj) he1a he2a hv

/-- After a scan that found nothing, no live entry holds the VPN. -/
theorem miss_no_entry (s : State) (w : Nat) (h : Inv s)
    (hs : tlbScan s.TLB w 0 s.tlbEntriesCount = some none) :
    ∀ (j : Nat) (e : TLBEntry), j < s.tlbEntriesCount → s.TLB[j]? = some e → e.vpn ≠ w := by
  intro j e hj he hc
  obtain ⟨k1, _, _⟩ := h.hTLB j e hj he
  exact tlbScan_none _ _ _ _ hs j e (Nat.zero_le _) (by omega) he ⟨k1, hc⟩

theorem distinct_setup (t f p v : Nat) : TlbDistinct (setup t f p v) := by
  intro i j e1 e2 hi
  exact absurd hi (Nat.not_lt_zero i)

theorem distinct_translate (s : State) (a : Nat) (o : Outcome) (h : Inv s)
    (hd : TlbDistinct s) (ht : translate s a = some o) : TlbDistinct o.state := by
  cases translate_path s a o ht with
  | hit q hs => exact hd
  | table entry hs hp hu hi hm =>
    exact distinct_inserted s _ _ (h.hIdx hm) h.hIdxCnt h.hCnt h.hM h.hTl hd
      (miss_no_entry s _ h hs)
  | full hs hp hf => exact hd
  | fresh frame hs hp hf hi hm =>
    exact distinct_inserted (allocated s (vpnOf s a) frame) _ _ (h.hIdx hm) h.hIdxCnt h.hCnt
      h.hM h.hTl hd (miss_no_entry s _ h hs)

theorem distinct_run (addrs : List Nat) : ∀ (s s1 : State), Inv s → TlbDistinct s →
    run s addrs = some s1 → TlbDistinct s1 := by
  induction addrs with
  | nil =>
    intro s s1 _ hd hr
    simp only [run, Option.some.injEq] at hr
    exact hr ▸ hd
  | cons a as ih =>
    intro s s1 h hd hr
    simp only [run] at hr
    cases ht : translate s a with
    | none => simp [ht] at hr
    | some o =>
      simp only [ht] at hr
      exact ih o.state s1 (inv_translate s a o h ht) (distinct_translate s a o h hd ht) hr

/-- C18 (TLB and page table agree): in a state reached from `setup`, every
live TLB index holds an entry, the entry is valid and its PFN is what the
mapped page-table slot of its VPN holds; live entries have pairwise distinct
VPNs; and a `translate` reporting `tlb_hit = true` builds its physical address
from the frame the page table holds for the VPN. -/
theorem C18_tlb_consistent (t f p v : Nat) (addrs : List Nat) (s : State)
    (hr : run (setup t f p v) addrs = some s) :
    s.tlbEntriesCount ≤ s.TLB.length ∧
      (∀ (i : Nat) (e : TLBEntry), i < s.tlbEntriesCount → s.TLB[i]? = some e →
        e.valid = true ∧ s.pageTable[e.vpn]? = some e.pfn ∧ e.pfn ≠ unmapped) ∧
      (∀ (i j : Nat) (e1 e2 : TLBEntry), i < s.tlbEntriesCount → j < s.tlbEntriesCount →
        s.TLB[i]? = some e1 → s.TLB[j]? = some e2 → e1.vpn = e2.vpn → i = j) ∧
      (∀ (a : Nat) (o : Outcome) (r : res_translate), translate s a = some o →
        o.result = some r → r.tlb_hit = true →
        ∃ pfn, s.pageTable[vpnOf s a]? = some pfn ∧ pfn ≠ unmapped ∧
          r.phy_address = phyAddr s pfn (offsetOf s a)) := by
  have h := inv_reachable t f p v addrs s hr
  have hd := distinct_run addrs _ s (inv_setup t f p v) (distinct_setup t f p v) hr
  refine ⟨by have := h.hCnt; have := h.hTl; omega, h.hTLB, hd, ?_⟩
  intro a o r ht hres hhit
  cases translate_path s a o ht with
  | hit q hs =>
    cases hres
    obtain ⟨g1, g2⟩ := scan_hit_mapped s _ q h hs
    exact ⟨q, g1, g2, rfl⟩
  | table entry hs hp hu hi hm =>
    cases hres
    cases hhit
  | full hs hp hf => cases hres
  | fresh frame hs hp hf hi hm =>
    cases hres
    cases hhit

set_option maxRecDepth 100000 in
theorem C18_tlb_consistent_witness :
    ∃ pfn, firstState.pageTable[vpnOf firstState 0x23FF0000005678]? = some pfn ∧
      pfn ≠ unmapped ∧
      (⟨0x5678, true, false⟩ : res_translate).phy_address =
        phyAddr firstState pfn (offsetOf firstState 0x23FF0000005678) :=
  (C18_tlb_consistent 5 9 16 8 [0x23450000000000] firstState run_first).2.2.2
    0x23FF0000005678 ⟨0, some ⟨0x5678, true, false⟩, firstState⟩ ⟨0x5678, true, false⟩
    (by decide) rfl rfl

/-! ## Frames in index order -/

theorem inOrder_setup (t f p v : Nat) : FramesInOrder (setup t f p v) := by
  intro i hi
  dsimp only [setup] at hi ⊢
  rw [List.getElem?_replicate_of_lt hi]
  simp

/-- The frame search returns the frame numbered `allocatedPages`. -/
theorem findFrame_eq_allocated (s : State) (frame : Nat) (_h : Inv s) (ho : FramesInOrder s)
    (hf : findFrame s.freeFrames 0 s.totalFrames = some (some frame)) :
    frame = s.allocatedPages := by
  obtain ⟨_, h2, h3, h4⟩ := findFrame_some _ _ _ _ hf
  have hlt : frame < s.totalFrames := by omega
  have e1 := ho frame hlt
  rw [h3] at e1
  have hle : s.allocatedPages ≤ frame := by
    have := (Option.some.inj e1).symm
    exact of_decide_eq_true this
  by_contra hne
  have hlt2 : s.allocatedPages < frame := by omega
  have e2 := ho s.allocatedPages (by omega)
  rw [h4 _ (Nat.zero_le _) hlt2] at e2
  have := (Option.some.inj e2).symm
  simp at this

theorem inOrder_translate (s : State) (a : Nat) (o : Outcome) (h : Inv s)
    (ho : FramesInOrder s) (ht : translate s a = some o) : FramesInOrder o.state := by
  cases translate_path s a o ht with
  | hit q hs => exact ho
  | table entry hs hp hu hi hm => exact ho
  | full hs hp hf => exact ho
  | fresh frame hs hp hf hi hm =>
    obtain ⟨hlt, hmod, hne, hfr, hpos⟩ := findFrame_bound s frame h hf
    have heq := findFrame_eq_allocated s frame h ho hf
    have hsum := h.hSum
    have hT := h.hT
    have hflen : frame < s.freeFrames.length := by rw [h.hFl]; exact hlt
    intro i hi2
    have hi3 : i < s.totalFrames := hi2
    show (s.freeFrames.set frame false)[i]? =
      some (decide ((s.allocatedPages + 1) % 65536 ≤ i))
    have hmod2 : (s.allocatedPages + 1) % 65536 = s.allocatedPages + 1 :=
      Nat.mod_eq_of_lt (by omega)
    rw [hmod2]
    by_cases hfi : frame = i
    · rw [← hfi, List.getElem?_set_self hflen, heq]
      simp
    · rw [List.getElem?_set_ne hfi, ho i hi3]
      congr 1
      have : (s.allocatedPages ≤ i) ↔ (s.allocatedPages + 1 ≤ i) := by omega
      exact decide_eq_decide.mpr this

theorem inOrder_run (addrs : List Nat) : ∀ (s s1 : State), Inv s → FramesInOrder s →
    run s addrs = some s1 → FramesInOrder s1 := by
  induction addrs with
  | nil =>
    intro s s1 _ ho hr
    simp only [run, Option.some.injEq] at hr
    exact hr ▸ ho
  | cons a as ih =>
    intro s s1 h ho hr
    simp only [run] at hr
    cases ht : translate s a with
    | none => simp [ht] at hr
    | some o =>
      simp only [ht] at hr
      exact ih o.state s1 (inv_translate s a o h ht) (inOrder_translate s a o h ho ht) hr

/-- C19 (frames are handed out in index order): in a state reached from
`setup`, frame `i` is used exactly when `i < allocatedPages`, `freeFrameCount`
is the number of frame flags that are free, and a `translate` reporting
`new_frame = true` maps the VPN to the frame numbered `allocatedPages` before
the call, builds its physical address from it and raises `allocatedPages` by
one; so the k-th page allocated in a session gets PFN k-1. -/
theorem C19_frames_in_order (t f p v : Nat) (addrs : List Nat) (s : State)
    (hr : run (setup t f p v) addrs = some s) :
    s.freeFrames.length = s.totalFrames ∧ s.allocatedPages ≤ s.totalFrames ∧
      (∀ (i : Nat), i < s.totalFrames →
        (s.freeFrames[i]? = some false ↔ i < s.allocatedPages)) ∧
      (∀ (i : Nat), i < s.totalFrames →
        (s.freeFrames[i]? = some true ↔ s.allocatedPages ≤ i)) ∧
      s.freeFrames.count true = s.freeFrameCount ∧
      (∀ (a : Nat) (o : Outcome) (r : res_translate), translate s a = some o →
        o.result = some r → r.new_frame = true →
        o.state.pageTable[vpnOf s a]? = some s.allocatedPages ∧
          r.phy_address = phyAddr s s.allocatedPages (offsetOf s a) ∧
          o.state.allocatedPages = s.allocatedPages + 1) := by
  have h := inv_reachable t f p v addrs s hr
  have ho := inOrder_run addrs _ s (inv_setup t f p v) (inOrder_setup t f p v) hr
  have hsum := h.hSum
  have hT := h.hT
  refine ⟨h.hFl, by omega, ?_, ?_, h.hFc, ?_⟩
  · intro i hi
    rw [ho i hi]
    constructor
    · intro hc
      have := Option.some.inj hc
      simp at this
      exact this
    · intro hc
      congr 1
      simp
      exact hc
  · intro i hi
    rw [ho i hi]
    constructor
    · intro hc
      exact of_decide_eq_true (Option.some.inj hc)
    · intro hc
      congr 1
      exact decide_eq_true hc
  · intro a o r ht hres hnew
    cases translate_path s a o ht with
    | hit q hs =>
      cases hres
      cases hnew
    | table entry hs hp hu hi hm =>
      cases hres
      cases hnew
    | full hs hp hf => cases hres
    | fresh frame hs hp hf hi hm =>
      cases hres
      obtain ⟨hlt, hmod, hne, hfr, hpos⟩ := findFrame_bound s frame h hf
      have heq := findFrame_eq_allocated s frame h ho hf
      have hvlen : vpnOf s a < s.pageTable.length := by
        rw [h.hPl]; exact vpnOf_lt_pageCount s a
      refine ⟨?_, ?_, ?_⟩
      · show (s.pageTable.set (vpnOf s a) (frame % 65536))[vpnOf s a]? = _
        rw [List.getElem?_set_self hvlen, hmod, heq]
      · show phyAddr s (frame % 65536) (offsetOf s a) = _
        rw [hmod, heq]
      · show (s.allocatedPages + 1) % 65536 = s.allocatedPages + 1
        omega

set_option maxRecDepth 100000 in
theorem C19_frames_in_order_witness :
    secondState.pageTable[vpnOf firstState 0x0100000000000000]? =
        some firstState.allocatedPages ∧
      (⟨281474976710656, false, true⟩ : res_translate).phy_address =
        phyAddr firstState firstState.allocatedPages
          (offsetOf firstState 0x0100000000000000) ∧
      secondState.allocatedPages = firstState.allocatedPages + 1 :=
  (C19_frames_in_order 5 9 16 8 [0x23450000000000] firstState run_first).2.2.2.2.2
    0x0100000000000000 ⟨0, some ⟨281474976710656, false, true⟩, secondState⟩
    ⟨281474976710656, false, true⟩ translate_second rfl rfl

/-! ## The sentinel and the history of a session -/

theorem not_mapped_setup (t f p v w : Nat) : ¬ Mapped (setup t f p v) w := by
  intro hc
  obtain ⟨pfn, h1, h2⟩ := hc
  dsimp only [setup] at h1
  exact h2 (List.eq_of_mem_replicate (List.getElem?_mem h1))

/-- Over a session, the mapped slots are those mapped at its start and those
of the calls that reported a new frame; these calls had an unmapped slot at
the start and no two of them share a VPN. -/
theorem newFrameVpns_spec (addrs : List Nat) : ∀ (s s1 : State), Inv s →
    run s addrs = some s1 →
    (∀ (w : Nat), Mapped s1 w ↔ (Mapped s w ∨ w ∈ newFrameVpns s addrs)) ∧
      (∀ (w : Nat), w ∈ newFrameVpns s addrs → s.pageTable[w]? = some unmapped) ∧
      (newFrameVpns s addrs).Nodup := by
  induction addrs with
  | nil =>
    intro s s1 _ hr
    simp only [run, Option.some.injEq] at hr
    subst hr
    refine ⟨fun w => ?_, fun w hw => ?_, List.nodup_nil⟩
    · simp [newFrameVpns]
    · simp [newFrameVpns] at hw
  | cons a as ih =>
    intro s s1 h hr
    simp only [run] at hr
    cases ht : translate s a with
    | none => simp [ht] at hr
    | some o =>
      simp only [ht] at hr
      obtain ⟨i1, i2, i3⟩ := ih o.state s1 (inv_translate s a o h ht) hr
      cases translate_path s a o ht with
      | hit q hs =>
        have e : newFrameVpns s (a :: as) = newFrameVpns s as := by
          simp [newFrameVpns, ht]
        rw [e]
        exact ⟨i1, i2, i3⟩
      | table entry hs hp hu hi hm =>
        have e : newFrameVpns s (a :: as) =
            newFrameVpns (inserted s (vpnOf s a) entry) as := by
          simp [newFrameVpns, ht]
        rw [e]
        exact ⟨i1, i2, i3⟩
      | full hs hp hf =>
        have e : newFrameVpns s (a :: as) = newFrameVpns s as := by
          simp [newFrameVpns, ht]
        rw [e]
        exact ⟨i1, i2, i3⟩
      | fresh frame hs hp hf hi hm =>
        obtain ⟨hlt, hmod, hne, hfr, hpos⟩ := findFrame_bound s frame h hf
        have hvlen : vpnOf s a < s.pageTable.length := by
          rw [h.hPl]; exact vpnOf_lt_pageCount s a
        have e : newFrameVpns s (a :: as) = vpnOf s a :: newFrameVpns
            { inserted (allocated s (vpnOf s a) frame) (vpnOf s a) (frame % 65536) with
              allocatedPages := (s.allocatedPages + 1) % 65536 } as := by
          simp [newFrameVpns, ht]
        rw [e]
        have hnewslot : ∀ (w : Nat),
            ({ inserted (allocated s (vpnOf s a) frame) (vpnOf s a) (frame % 65536) with
              allocatedPages := (s.allocatedPages + 1) % 65536 } : State).pageTable[w]? =
            (s.pageTable.set (vpnOf s a) (frame % 65536))[w]? := fun _ => rfl
        have hv : ({ inserted (allocated s (vpnOf s a) frame) (vpnOf s a) (frame % 65536) with
              allocatedPages := (s.allocatedPages + 1) % 65536 } : State).pageTable[vpnOf s a]? =
            some frame := by
          rw [hnewslot, List.getElem?_set_self hvlen, hmod]
        refine ⟨fun w => ?_, fun w hw => ?_, ?_⟩
        · rw [i1 w, List.mem_cons]
          constructor
          · intro hc
            rcases hc with hc | hc
            · by_cases hwv : vpnOf s a = w
              · exact Or.inr (Or.inl hwv.symm)
              · obtain ⟨pfn, k1, k2⟩ := hc
                rw [hnewslot, List.getElem?_set_ne hwv] at k1
                exact Or.inl ⟨pfn, k1, k2⟩
            · exact Or.inr (Or.inr hc)
          · intro hc
            rcases hc with hc | hc | hc
            · obtain ⟨pfn, k1, k2⟩ := hc
              have hwv : vpnOf s a ≠ w := by
                intro hEq
                rw [← hEq, hp] at k1
                exact k2 (Option.some.inj k1).symm
              refine Or.inl ⟨pfn, ?_, k2⟩
              rw [hnewslot, List.getElem?_set_ne hwv]
              exact k1
            · rw [hc]
              exact Or.inl ⟨frame, hv, hne⟩
            · exact Or.inr hc
        · rcases List.mem_cons.mp hw with hc | hc
          · rw [hc]; exact hp
          · have k := i2 w hc
            have hwv : vpnOf s a ≠ w := by
              intro hEq
              rw [← hEq, hv] at k
              exact hne (Option.some.inj k)
            rw [hnewslot, List.getElem?_set_ne hwv] at k
            exact k
        · refine List.nodup_cons.mpr ⟨?_, i3⟩
          intro hc
          have k := i2 _ hc
          rw [hv] at k
          exact hne (Option.some.inj k)

/-- C20 (the sentinel never collides with a frame): in a state reached from
`setup`, `totalFrames ≤ 65535`, every PFN held by a page-table slot or a live
TLB entry is below `totalFrames` and so is not the sentinel `0xFFFF`; a slot is
mapped exactly when a call of the session reported `new_frame = true` for its
VPN, and no two such calls share a VPN. -/
theorem C20_sentinel_sound (t f p v : Nat) (addrs : List Nat) (s : State)
    (hr : run (setup t f p v) addrs = some s) :
    s.totalFrames ≤ 65535 ∧
      (∀ (w pfn : Nat), s.pageTable[w]? = some pfn → pfn ≠ unmapped → pfn < s.totalFrames) ∧
      (∀ (i : Nat) (e : TLBEntry), i < s.tlbEntriesCount → s.TLB[i]? = some e →
        e.pfn < s.totalFrames ∧ e.pfn ≠ unmapped) ∧
      (∀ (w : Nat), Mapped s w ↔ w ∈ newFrameVpns (setup t f p v) addrs) ∧
      (newFrameVpns (setup t f p v) addrs).Nodup := by
  have h := inv_reachable t f p v addrs s hr
  have hT := h.hT
  have hbound : ∀ (w pfn : Nat), s.pageTable[w]? = some pfn → pfn ≠ unmapped →
      pfn < s.totalFrames := by
    intro w pfn hw hu
    have q := h.hPT w pfn hw hu
    rw [← h.hFl]
    by_contra hc
    rw [List.getElem?_eq_none (by omega)] at q
    cases q
  obtain ⟨k1, _, k3⟩ := newFrameVpns_spec addrs _ s (inv_setup t f p v) hr
  refine ⟨by omega, hbound, ?_, ?_, k3⟩
  · intro i e hi he
    obtain ⟨_, g2, g3⟩ := h.hTLB i e hi he
    exact ⟨hbound _ _ g2 g3, g3⟩
  · intro w
    rw [k1 w]
    constructor
    · intro hc
      rcases hc with hc | hc
      · exact absurd hc (not_mapped_setup t f p v w)
      · exact hc
    · intro hc
      exact Or.inr hc

set_option maxRecDepth 100000 in
theorem C20_sentinel_sound_witness :
    fullState.totalFrames ≤ 65535 ∧ (newFrameVpns (setup 5 9 16 8) ninePages).Nodup ∧
      (Mapped fullState 8 ↔ 8 ∈ newFrameVpns (setup 5 9 16 8) ninePages) :=
  ⟨(C20_sentinel_sound 5 9 16 8 ninePages fullState run_ninePages).1,
    (C20_sentinel_sound 5 9 16 8 ninePages fullState run_ninePages).2.2.2.2,
    (C20_sentinel_sound 5 9 16 8 ninePages fullState run_ninePages).2.2.2.1 8⟩

end MemMgmt
